/-
  Verification of the PDCP transmit entity (pdcp_entity_tx.cpp) against its
  natural-language specification.

  The entity's methods are embedded as pure Lean functions over an explicit
  state record; calls to the collaborator interfaces (lower_dn, upper_cn) are
  recorded as an event trace.  The cryptographic algorithm implementations
  (security_nia1/2/3, security_nea1/2/3) live outside the embedded sources and
  are passed in as a bundle of abstract functions.
-/
import Mathlib

namespace PdcpTx

/-- A byte value (kept as a natural number; all produced bytes are below 256). -/
abbrev Byte := Nat

/-- RLC mode of the bearer (pdcp_rlc_mode). -/
inductive pdcp_rlc_mode where
  | um
  | am
deriving DecidableEq, Repr

/-- Bearer kind: signalling or data radio bearer. -/
inductive rb_kind where
  | srb
  | drb
deriving DecidableEq, Repr

/-- Discard timer configuration (pdcp_discard_timer): a duration in
milliseconds or one of the two sentinels. -/
inductive pdcp_discard_timer where
  | not_configured
  | infinity
  | ms (n : Nat)
deriving DecidableEq, Repr

/-- Integrity algorithm selector (security::integrity_algorithm). -/
inductive integrity_algorithm where
  | nia0
  | nia1
  | nia2
  | nia3
deriving DecidableEq, Repr

/-- Ciphering algorithm selector (security::ciphering_algorithm). -/
inductive ciphering_algorithm where
  | nea0
  | nea1
  | nea2
  | nea3
deriving DecidableEq, Repr

/-- Direction of the bearer (security::security_direction). -/
inductive security_direction where
  | uplink
  | downlink
deriving DecidableEq, Repr

/-- A 128-bit key, as its byte sequence. -/
abbrev sec_key := List Byte

/-- COUNT thresholds (pdcp_max_count). -/
structure max_count_t where
  notify : Nat
  hard : Nat
deriving DecidableEq, Repr

/-- The configuration slice of pdcp_config::pdcp_tx_config consumed by the TX
entity.  sn_size is kept as the raw bit-width number so that the defaulted
switch arm of write_data_pdu_header (an invalid width) is expressible. -/
structure pdcp_config where
  sn_size : Nat
  rlc_mode : pdcp_rlc_mode
  discard_timer : pdcp_discard_timer
  max_count : max_count_t
  status_report_required : Bool
deriving DecidableEq, Repr

/-- Security configuration (security::sec_128_as_config): algorithms plus the
four key domains. -/
structure sec_config where
  integ_algo : integrity_algorithm
  cipher_algo : ciphering_algorithm
  k_128_rrc_int : sec_key
  k_128_rrc_enc : sec_key
  k_128_up_int : sec_key
  k_128_up_enc : sec_key
deriving DecidableEq, Repr

/-- The cryptographic algorithm implementations (security_nia1/2/3 and
security_nea1/2/3).  Their sources are outside the embedded files; each is an
abstract function of (key, count, bearer_id, direction, message). -/
structure security_primitives where
  nia1 : sec_key → Nat → Nat → security_direction → List Byte → List Byte
  nia2 : sec_key → Nat → Nat → security_direction → List Byte → List Byte
  nia3 : sec_key → Nat → Nat → security_direction → List Byte → List Byte
  nea1 : sec_key → Nat → Nat → security_direction → List Byte → List Byte
  nea2 : sec_key → Nat → Nat → security_direction → List Byte → List Byte
  nea3 : sec_key → Nat → Nat → security_direction → List Byte → List Byte

/-- The immutable part of a pdcp_entity_tx: configuration, security material
and identity.  compile_status_report models the status_provider collaborator:
the control PDU it would hand back when asked. -/
structure pdcp_entity_tx where
  cfg : pdcp_config
  sec_cfg : sec_config
  rb_type : rb_kind
  lcid : Nat
  direction : security_direction
  integrity_enabled : Bool
  ciphering_enabled : Bool
  compile_status_report : List Byte
deriving DecidableEq, Repr

/-- pdcp_entity_base::is_srb. -/
def pdcp_entity_tx.is_srb (e : pdcp_entity_tx) : Bool :=
  match e.rb_type with
  | rb_kind.srb => true
  | rb_kind.drb => false

/-- pdcp_entity_base::is_drb. -/
def pdcp_entity_tx.is_drb (e : pdcp_entity_tx) : Bool :=
  match e.rb_type with
  | rb_kind.srb => false
  | rb_kind.drb => true

/-- Modelled from the spec: the SN accessor of the entity header (the header
file is not among the embedded sources); SN = COUNT mod 2^sn_size. -/
def SN (sn_size count : Nat) : Nat := count % 2 ^ sn_size

/-- The mutable state of a pdcp_entity_tx: the COUNT counter, the two one-shot
latches, the discard map (COUNT ascending; the cached PDU is empty for UM) and
the metric counters.  An armed discard timer is represented by its map entry. -/
structure pdcp_tx_state where
  tx_next : Nat
  max_count_notified : Bool
  max_count_overflow : Bool
  discard_timers_map : List (Nat × List Byte)
  num_sdus : Nat
  num_pdus : Nat
  num_discard_timeouts : Nat
deriving DecidableEq, Repr

/-- One observable call on a collaborator interface. -/
inductive event where
  | new_pdu (buf : List Byte) (pdcp_count : Option Nat)
  | discard_pdu (count : Nat)
  | protocol_failure
  | max_count_reached
deriving DecidableEq, Repr

/-- Insertion into the ordered discard map (std::map::insert: keeps an already
present key unchanged). -/
def map_insert : List (Nat × List Byte) → Nat → List Byte → List (Nat × List Byte)
  | [], k, v => [(k, v)]
  | (k1, v1) :: rest, k, v =>
    if k < k1 then (k, v) :: (k1, v1) :: rest
    else if k = k1 then (k1, v1) :: rest
    else (k1, v1) :: map_insert rest k v

/-- Erasure of a key from the discard map (std::map::erase(key)). -/
def map_erase : List (Nat × List Byte) → Nat → List (Nat × List Byte)
  | [], _ => []
  | (k1, v1) :: rest, k => if k1 = k then rest else (k1, v1) :: map_erase rest k

/-
 * PDU Helpers
-/

/-- pdcp_entity_tx::write_data_pdu_header.  The srsgnb_assert on an 18-bit SRB
is modelled as the fault outcome none; the defaulted switch arm (an invalid
sn_size) only logs, leaving the header with just its first byte. -/
def write_data_pdu_header (e : pdcp_entity_tx) (sn : Nat) : Option (List Byte) :=
  if e.is_srb && decide (e.cfg.sn_size = 18) then none
  else
    let b0 : Byte := if e.is_drb then 0x80 else 0x00
    match e.cfg.sn_size with
    | 12 => some [b0 ||| ((sn &&& 0x00000f00) >>> 8), sn &&& 0x000000ff]
    | 18 => some [b0 ||| ((sn &&& 0x00030000) >>> 16),
                  (sn &&& 0x0000ff00) >>> 8,
                  sn &&& 0x000000ff]
    | _ => some [b0]

/-
 * Ciphering and Integrity Protection Helpers
-/

/-- The zero-initialised MAC-I (security::sec_mac mac = \x7b\x7d). -/
def zero_mac : List Byte := List.replicate 4 0

/-- pdcp_entity_tx::integrity_generate: key domain selection and algorithm
dispatch; nia0 leaves the zero-initialised MAC untouched. -/
def integrity_generate (p : security_primitives) (e : pdcp_entity_tx)
    (buf : List Byte) (count : Nat) : List Byte :=
  let k_int := if e.is_srb then e.sec_cfg.k_128_rrc_int else e.sec_cfg.k_128_up_int
  match e.sec_cfg.integ_algo with
  | integrity_algorithm.nia0 => zero_mac
  | integrity_algorithm.nia1 => p.nia1 k_int count (e.lcid - 1) e.direction buf
  | integrity_algorithm.nia2 => p.nia2 k_int count (e.lcid - 1) e.direction buf
  | integrity_algorithm.nia3 => p.nia3 k_int count (e.lcid - 1) e.direction buf

/-- pdcp_entity_tx::cipher_encrypt: key domain selection and algorithm
dispatch; nea0 copies the message through. -/
def cipher_encrypt (p : security_primitives) (e : pdcp_entity_tx)
    (msg : List Byte) (count : Nat) : List Byte :=
  let k_enc := if e.is_srb then e.sec_cfg.k_128_rrc_enc else e.sec_cfg.k_128_up_enc
  match e.sec_cfg.cipher_algo with
  | ciphering_algorithm.nea0 => msg
  | ciphering_algorithm.nea1 => p.nea1 k_enc count (e.lcid - 1) e.direction msg
  | ciphering_algorithm.nea2 => p.nea2 k_enc count (e.lcid - 1) e.direction msg
  | ciphering_algorithm.nea3 => p.nea3 k_enc count (e.lcid - 1) e.direction msg

/-- pdcp_entity_tx::apply_ciphering_and_integrity_protection. -/
def apply_ciphering_and_integrity_protection (p : security_primitives)
    (e : pdcp_entity_tx) (hdr sdu : List Byte) (count : Nat) : List Byte :=
  let mac : List Byte :=
    if e.integrity_enabled then integrity_generate p e (hdr ++ sdu) count else zero_mac
  let ct : List Byte :=
    if e.ciphering_enabled then
      cipher_encrypt p e
        (sdu ++ (if e.is_srb || (e.is_drb && e.integrity_enabled) then mac else []))
        count
    else
      sdu ++ (if e.is_srb || (e.is_drb && e.integrity_enabled) then mac else [])
  hdr ++ ct

/-
 * Lower-layer delivery
-/

/-- pdcp_entity_tx::write_data_pdu_to_lower_layers: bump the PDU metric and
hand the PDU down; pdcp_count is attached only for data PDUs on DRBs. -/
def write_data_pdu_to_lower_layers (e : pdcp_entity_tx) (st : pdcp_tx_state)
    (count : Nat) (buf : List Byte) : pdcp_tx_state × List event :=
  ({ st with num_pdus := st.num_pdus + 1 },
   [event.new_pdu buf (if e.is_drb then some count else none)])

/-- pdcp_entity_tx::write_control_pdu_to_lower_layers: bump the PDU metric and
hand the PDU down; pdcp_count is not set for control PDUs. -/
def write_control_pdu_to_lower_layers (st : pdcp_tx_state) (buf : List Byte) :
    pdcp_tx_state × List event :=
  ({ st with num_pdus := st.num_pdus + 1 }, [event.new_pdu buf none])

/-
 * Transmit entry point
-/

/-- pdcp_entity_tx::handle_sdu.  The result is none when the srsgnb_assert in
write_data_pdu_header faults; otherwise it is the successor state together
with the trace of collaborator calls, in order. -/
def handle_sdu (p : security_primitives) (e : pdcp_entity_tx)
    (st0 : pdcp_tx_state) (sdu : List Byte) : Option (pdcp_tx_state × List event) :=
  let st := { st0 with num_sdus := st0.num_sdus + 1 }
  if st.tx_next ≥ e.cfg.max_count.hard then
    if st.max_count_overflow then some (st, [])
    else some ({ st with max_count_overflow := true }, [event.protocol_failure])
  else
    let r1 : pdcp_tx_state × List event :=
      if st.tx_next ≥ e.cfg.max_count.notify then
        if st.max_count_notified then (st, [])
        else ({ st with max_count_notified := true }, [event.max_count_reached])
      else (st, [])
    match write_data_pdu_header e (SN e.cfg.sn_size st.tx_next) with
    | none => none
    | some header_buf =>
      let protected_buf :=
        apply_ciphering_and_integrity_protection p e header_buf sdu st.tx_next
      let cached : List Byte :=
        if e.cfg.rlc_mode = pdcp_rlc_mode.um then [] else protected_buf
      let st2 :=
        if e.cfg.discard_timer ≠ pdcp_discard_timer.infinity ∧
           e.cfg.discard_timer ≠ pdcp_discard_timer.not_configured then
          { r1.1 with discard_timers_map :=
              map_insert r1.1.discard_timers_map st.tx_next cached }
        else r1.1
      let r3 := write_data_pdu_to_lower_layers e st2 st.tx_next protected_buf
      some ({ r3.1 with tx_next := (st.tx_next + 1) % 2 ^ 32 }, r1.2 ++ r3.2)

/-
 * Status report ingress
-/

/-- The bits of one byte, most significant first. -/
def byte_bits (b : Byte) : List Bool :=
  [b.testBit 7, b.testBit 6, b.testBit 5, b.testBit 4,
   b.testBit 3, b.testBit 2, b.testBit 1, b.testBit 0]

/-- The bit stream of a byte buffer, network bit order. -/
def buffer_bits (buf : List Byte) : List Bool := buf.flatMap byte_bits

/-- The value of a big-endian bit string. -/
def bits_val (bs : List Bool) : Nat :=
  bs.foldl (fun a b => 2 * a + (if b then 1 else 0)) 0

/-- Modelled from the spec: bit_decoder::unpack of srsgnb/support/bit_encoding.h
is not among the embedded sources.  It reads n bits in network bit order and
advances; when fewer than n bits remain it fails, which is modelled as the
value 0 with the stream exhausted. -/
def unpack (n : Nat) (bs : List Bool) : Nat × List Bool :=
  if n ≤ bs.length then (bits_val (bs.take n), bs.drop n) else (0, [])

/-- The bitmap evaluation loop of pdcp_entity_tx::handle_status_report: the
working COUNT is incremented (as a 32-bit value) before each bit; a set bit
notifies lower_dn.on_discard_pdu and erases the entry, present or not. -/
def bitmap_loop : Nat → List Bool → List (Nat × List Byte) →
    List (Nat × List Byte) × List event
  | _, [], m => (m, [])
  | fmc, b :: rest, m =>
    let fmc1 := (fmc + 1) % 2 ^ 32
    if b then
      let r := bitmap_loop fmc1 rest (map_erase m fmc1)
      (r.1, event.discard_pdu fmc1 :: r.2)
    else
      bitmap_loop fmc1 rest m

/-- pdcp_entity_tx::handle_status_report: header validation, the pre-FMC prune
of the discard map (ascending, notifying on_discard_pdu per erased entry) and
the bitmap walk. -/
def handle_status_report (st : pdcp_tx_state) (status : List Byte) :
    pdcp_tx_state × List event :=
  let bs0 := buffer_bits status
  let u1 := unpack 1 bs0
  if u1.1 ≠ 0 then (st, [])
  else
    let u2 := unpack 3 u1.2
    if u2.1 ≠ 0 then (st, [])
    else
      let u3 := unpack 4 u2.2
      if u3.1 ≠ 0 then (st, [])
      else
        let u4 := unpack 32 u3.2
        let fmc := u4.1
        let prune_evs :=
          (st.discard_timers_map.filter (fun kv => decide (kv.1 < fmc))).map
            (fun kv => event.discard_pdu kv.1)
        let pruned := st.discard_timers_map.filter (fun kv => !decide (kv.1 < fmc))
        let r := bitmap_loop fmc u4.2 pruned
        ({ st with discard_timers_map := r.1 }, prune_evs ++ r.2)

/-
 * Status report egress and data recovery
-/

/-- pdcp_entity_tx::send_status_report: only effective when
status_report_required is configured; ships the PDU compiled by the status
provider through write_control_pdu_to_lower_layers. -/
def send_status_report (e : pdcp_entity_tx) (st : pdcp_tx_state) :
    pdcp_tx_state × List event :=
  if e.cfg.status_report_required then
    write_control_pdu_to_lower_layers st e.compile_status_report
  else (st, [])

/-- The re-delivery walk of pdcp_entity_tx::data_recovery: each map entry is
written to the lower layers in ascending COUNT order. -/
def data_recovery_loop (e : pdcp_entity_tx) : pdcp_tx_state →
    List (Nat × List Byte) → pdcp_tx_state × List event
  | st, [] => (st, [])
  | st, kv :: rest =>
    let r1 := write_data_pdu_to_lower_layers e st kv.1 kv.2
    let r2 := data_recovery_loop e r1.1 rest
    (r2.1, r1.2 ++ r2.2)

/-- pdcp_entity_tx::data_recovery.  The srsgnb_assert on a bearer other than
an AM DRB is modelled as the fault outcome none. -/
def data_recovery (e : pdcp_entity_tx)
    (st : pdcp_tx_state) : Option (pdcp_tx_state × List event) :=
  if e.is_drb && decide (e.cfg.rlc_mode = pdcp_rlc_mode.am) then
    let r1 :=
      if e.cfg.status_report_required then send_status_report e st else (st, [])
    let r2 := data_recovery_loop e r1.1 r1.1.discard_timers_map
    some (r2.1, r1.2 ++ r2.2)
  else none

/-
 * Timers
-/

/-- pdcp_entity_tx::discard_callback::operator(): notify the RLC, bump the
discard metric and erase the map entry. -/
def discard_callback (st : pdcp_tx_state) (discard_count : Nat) :
    pdcp_tx_state × List event :=
  ({ st with
      num_discard_timeouts := st.num_discard_timeouts + 1,
      discard_timers_map := map_erase st.discard_timers_map discard_count },
   [event.discard_pdu discard_count])

/-
 * Runs of the entity
-/

/-- One call on the entity's public surface. -/
inductive op where
  | sdu (b : List Byte)
  | status (b : List Byte)
  | send_status
  | recovery
  | timer_expiry (count : Nat)
deriving DecidableEq, Repr

/-- One entity step; none is a fatal assertion. -/
def step (p : security_primitives) (e : pdcp_entity_tx) (st : pdcp_tx_state) :
    op → Option (pdcp_tx_state × List event)
  | op.sdu b => handle_sdu p e st b
  | op.status b => some (handle_status_report st b)
  | op.send_status => some (send_status_report e st)
  | op.recovery => data_recovery e st
  | op.timer_expiry c => some (discard_callback st c)

/-- A run of the entity: the final state and the concatenated event trace,
or none when some step faults. -/
def run (p : security_primitives) (e : pdcp_entity_tx) :
    pdcp_tx_state → List op → Option (pdcp_tx_state × List event)
  | st, [] => some (st, [])
  | st, o :: rest =>
    match step p e st o with
    | none => none
    | some r1 =>
      match run p e r1.1 rest with
      | none => none
      | some r2 => some (r2.1, r1.2 ++ r2.2)

/-
 * Concrete fixtures used by witnesses and counterexamples
-/

/-- Trivial cryptographic primitives: the integrity algorithms return the zero
MAC, the ciphering algorithms copy the message. -/
def prim0 : security_primitives :=
  { nia1 := fun _ _ _ _ _ => zero_mac
    nia2 := fun _ _ _ _ _ => zero_mac
    nia3 := fun _ _ _ _ _ => zero_mac
    nea1 := fun _ _ _ _ m => m
    nea2 := fun _ _ _ _ m => m
    nea3 := fun _ _ _ _ m => m }

/-- A security configuration with identity algorithms and empty keys. -/
def keys0 : sec_config :=
  { integ_algo := integrity_algorithm.nia0
    cipher_algo := ciphering_algorithm.nea0
    k_128_rrc_int := []
    k_128_rrc_enc := []
    k_128_up_int := []
    k_128_up_enc := [] }

/-- A DRB with 12-bit SNs, UM mode, no discard timer and security off. -/
def ent0 : pdcp_entity_tx :=
  { cfg := { sn_size := 12
             rlc_mode := pdcp_rlc_mode.um
             discard_timer := pdcp_discard_timer.not_configured
             max_count := { notify := 1000, hard := 4000 }
             status_report_required := false }
    sec_cfg := keys0
    rb_type := rb_kind.drb
    lcid := 1
    direction := security_direction.downlink
    integrity_enabled := false
    ciphering_enabled := false
    compile_status_report := [] }

/-- An AM DRB with a 10 ms discard timer and the hard COUNT cap at 1. -/
def ent_am : pdcp_entity_tx :=
  { cfg := { sn_size := 12
             rlc_mode := pdcp_rlc_mode.am
             discard_timer := pdcp_discard_timer.ms 10
             max_count := { notify := 1, hard := 1 }
             status_report_required := false }
    sec_cfg := keys0
    rb_type := rb_kind.drb
    lcid := 1
    direction := security_direction.downlink
    integrity_enabled := false
    ciphering_enabled := false
    compile_status_report := [] }

/-- The fresh entity state: TX_NEXT 0, latches clear, empty map. -/
def st0 : pdcp_tx_state :=
  { tx_next := 0
    max_count_notified := false
    max_count_overflow := false
    discard_timers_map := []
    num_sdus := 0
    num_pdus := 0
    num_discard_timeouts := 0 }

/-
 * Specification-side description of the security pipeline (section 4.3 of the
 * specification), used to state the refinement claim about
 * apply_ciphering_and_integrity_protection.
-/

/-- The integrity key domain the specification assigns to the bearer kind. -/
def spec_integrity_key (e : pdcp_entity_tx) : sec_key :=
  if e.is_srb then e.sec_cfg.k_128_rrc_int else e.sec_cfg.k_128_up_int

/-- The ciphering key domain the specification assigns to the bearer kind. -/
def spec_ciphering_key (e : pdcp_entity_tx) : sec_key :=
  if e.is_srb then e.sec_cfg.k_128_rrc_enc else e.sec_cfg.k_128_up_enc

/-- The zero-based bearer identifier fed to the algorithms: lcid minus one. -/
def spec_bearer_id (e : pdcp_entity_tx) : Nat := e.lcid - 1

/-- The MAC-I field per the specification: computed over header plus SDU when
integrity is enabled (all-zero for nia0); the all-zero default when integrity
is disabled and no MAC is generated. -/
def spec_mac_i (p : security_primitives) (e : pdcp_entity_tx)
    (hdr sdu : List Byte) (count : Nat) : List Byte :=
  if e.integrity_enabled then
    match e.sec_cfg.integ_algo with
    | integrity_algorithm.nia0 => List.replicate 4 0
    | integrity_algorithm.nia1 =>
      p.nia1 (spec_integrity_key e) count (spec_bearer_id e) e.direction (hdr ++ sdu)
    | integrity_algorithm.nia2 =>
      p.nia2 (spec_integrity_key e) count (spec_bearer_id e) e.direction (hdr ++ sdu)
    | integrity_algorithm.nia3 =>
      p.nia3 (spec_integrity_key e) count (spec_bearer_id e) e.direction (hdr ++ sdu)
  else List.replicate 4 0

/-- The plaintext per the specification: the SDU with the MAC-I appended
exactly when the bearer is an SRB, or a DRB with integrity enabled. -/
def spec_plaintext (p : security_primitives) (e : pdcp_entity_tx)
    (hdr sdu : List Byte) (count : Nat) : List Byte :=
  if e.is_srb || (e.is_drb && e.integrity_enabled) then
    sdu ++ spec_mac_i p e hdr sdu count
  else sdu

/-- The ciphertext per the specification: the encryption of the plaintext
under (key, count, bearer_id, direction) when ciphering is enabled with
nea1/2/3; the plaintext itself when ciphering is disabled or the algorithm
is nea0. -/
def spec_ciphertext (p : security_primitives) (e : pdcp_entity_tx)
    (hdr sdu : List Byte) (count : Nat) : List Byte :=
  let pt := spec_plaintext p e hdr sdu count
  if e.ciphering_enabled then
    match e.sec_cfg.cipher_algo with
    | ciphering_algorithm.nea0 => pt
    | ciphering_algorithm.nea1 =>
      p.nea1 (spec_ciphering_key e) count (spec_bearer_id e) e.direction pt
    | ciphering_algorithm.nea2 =>
      p.nea2 (spec_ciphering_key e) count (spec_bearer_id e) e.direction pt
    | ciphering_algorithm.nea3 =>
      p.nea3 (spec_ciphering_key e) count (spec_bearer_id e) e.direction pt
  else pt

/-- The protected PDU per the specification: the header, never ciphered,
followed by the ciphertext. -/
def spec_protected_pdu (p : security_primitives) (e : pdcp_entity_tx)
    (hdr sdu : List Byte) (count : Nat) : List Byte :=
  hdr ++ spec_ciphertext p e hdr sdu count

/-- C3: for every SDU processed past the threshold guards, the produced
protected PDU is header followed by C, where the MAC-I is computed over
header and SDU when integrity is enabled (all-zero for nia0, none generated
when disabled), the plaintext appends the MAC-I exactly for SRBs and for DRBs
with integrity enabled, C is the nea1/2/3 encryption of the plaintext under
(key, count, bearer_id, direction) when ciphering is enabled and the plaintext
itself when ciphering is disabled or the algorithm is nea0; the header bytes
are never ciphered. -/
theorem protected_pdu_matches_spec (p : security_primitives) (e : pdcp_entity_tx)
    (hdr sdu : List Byte) (count : Nat) :
    apply_ciphering_and_integrity_protection p e hdr sdu count =
      spec_protected_pdu p e hdr sdu count ∧
    (apply_ciphering_and_integrity_protection p e hdr sdu count).take hdr.length =
      hdr := by
  have hmain : apply_ciphering_and_integrity_protection p e hdr sdu count =
      spec_protected_pdu p e hdr sdu count := by
    unfold apply_ciphering_and_integrity_protection spec_protected_pdu
      spec_ciphertext spec_plaintext spec_mac_i integrity_generate cipher_encrypt
      spec_integrity_key spec_ciphering_key spec_bearer_id zero_mac
    cases hi : e.integrity_enabled <;> cases hc : e.ciphering_enabled <;>
      cases halg : e.sec_cfg.integ_algo <;> cases hcalg : e.sec_cfg.cipher_algo <;>
      cases hb : e.is_srb || (e.is_drb && e.integrity_enabled) <;>
      simp_all
  refine ⟨hmain, ?_⟩
  rw [hmain]
  exact List.take_left hdr _

/-
 * Data recovery unfolding lemmas
-/

/-- The re-delivery walk only bumps the PDU metric and emits one data PDU per
map entry, in map order. -/
theorem data_recovery_loop_spec (e : pdcp_entity_tx) :
    ∀ (m : List (Nat × List Byte)) (st : pdcp_tx_state),
      data_recovery_loop e st m =
        ({ st with num_pdus := st.num_pdus + m.length },
         m.map fun kv => event.new_pdu kv.2 (if e.is_drb then some kv.1 else none)) := by
  intro m
  induction m with
  | nil => intro st; simp [data_recovery_loop]
  | cons kv rest ih =>
    intro st
    simp [data_recovery_loop, write_data_pdu_to_lower_layers, ih]
    omega

/-- C10: every control PDU the entity hands to lower_dn.on_new_pdu — through
send_status_report or as the status report opening data_recovery — carries no
pdcp_count, for SRBs and DRBs alike, while the transmitted-PDU metric is still
incremented for it. -/
theorem control_pdu_carries_no_count :
    (∀ (e : pdcp_entity_tx) (st : pdcp_tx_state),
       e.cfg.status_report_required = true →
       send_status_report e st =
         ({ st with num_pdus := st.num_pdus + 1 },
          [event.new_pdu e.compile_status_report none])) ∧
    (∀ (e : pdcp_entity_tx) (st : pdcp_tx_state),
       e.cfg.status_report_required = false →
       send_status_report e st = (st, [])) ∧
    (∀ (e : pdcp_entity_tx) (st : pdcp_tx_state) (r : pdcp_tx_state × List event),
       e.cfg.status_report_required = true →
       data_recovery e st = some r →
       r.2.head? = some (event.new_pdu e.compile_status_report none) ∧
       r.1.num_pdus = st.num_pdus + 1 + st.discard_timers_map.length) := by
  refine ⟨?_, ?_, ?_⟩
  · intro e st h
    simp [send_status_report, h, write_control_pdu_to_lower_layers]
  · intro e st h
    simp [send_status_report, h]
  · intro e st r h hrec
    unfold data_recovery at hrec
    by_cases hb : e.is_drb && decide (e.cfg.rlc_mode = pdcp_rlc_mode.am)
    · rw [if_pos hb] at hrec
      simp only [h, if_true] at hrec
      rw [send_status_report, if_pos h, write_control_pdu_to_lower_layers] at hrec
      rw [data_recovery_loop_spec] at hrec
      cases hrec
      constructor
      · rfl
      · rfl
    · rw [if_neg hb] at hrec
      exact absurd hrec (by simp)

/-- Witness for C10: a concrete AM DRB with status reporting enabled. -/
def ent_sr : pdcp_entity_tx :=
  { cfg := { sn_size := 12
             rlc_mode := pdcp_rlc_mode.am
             discard_timer := pdcp_discard_timer.ms 50
             max_count := { notify := 1000, hard := 4000 }
             status_report_required := true }
    sec_cfg := keys0
    rb_type := rb_kind.drb
    lcid := 1
    direction := security_direction.downlink
    integrity_enabled := false
    ciphering_enabled := false
    compile_status_report := [0, 0, 0, 0, 1] }

/-- Witness for the C10 theorem at a concrete entity and state. -/
theorem control_pdu_carries_no_count_witness :
    ent_sr.cfg.status_report_required = true ∧
    send_status_report ent_sr st0 =
      ({ st0 with num_pdus := st0.num_pdus + 1 },
       [event.new_pdu ent_sr.compile_status_report none]) :=
  ⟨by decide, control_pdu_carries_no_count.1 ent_sr st0 (by decide)⟩

/-
 * Bit arithmetic toolkit for the header codec
-/

theorem land_two_pow_sub_one (a n : Nat) : a &&& (2 ^ n - 1) = a % 2 ^ n := by
  apply Nat.eq_of_testBit_eq
  intro i
  simp [Nat.testBit_and, Nat.testBit_two_pow_sub_one, Nat.testBit_mod_two_pow,
    Bool.and_comm]

theorem land_shiftRight (a b n : Nat) :
    (a &&& b) >>> n = (a >>> n) &&& (b >>> n) := by
  apply Nat.eq_of_testBit_eq
  intro i
  simp [Nat.testBit_and, Nat.testBit_shiftRight]

theorem mask_ff (a : Nat) : a &&& 0xff = a % 256 := by
  have h := land_two_pow_sub_one a 8
  norm_num at h
  exact h

theorem mask_f00_shift (a : Nat) : (a &&& 0xf00) >>> 8 = a / 256 % 16 := by
  rw [land_shiftRight]
  have h1 : (0xf00 : Nat) >>> 8 = 2 ^ 4 - 1 := by decide
  rw [h1, land_two_pow_sub_one, Nat.shiftRight_eq_div_pow]
  norm_num

theorem mask_ff00_shift (a : Nat) : (a &&& 0xff00) >>> 8 = a / 256 % 256 := by
  rw [land_shiftRight]
  have h1 : (0xff00 : Nat) >>> 8 = 2 ^ 8 - 1 := by decide
  rw [h1, land_two_pow_sub_one, Nat.shiftRight_eq_div_pow]
  norm_num

theorem mask_30000_shift (a : Nat) : (a &&& 0x30000) >>> 16 = a / 65536 % 4 := by
  rw [land_shiftRight]
  have h1 : (0x30000 : Nat) >>> 16 = 2 ^ 2 - 1 := by decide
  rw [h1, land_two_pow_sub_one, Nat.shiftRight_eq_div_pow]
  norm_num

theorem lor128_of_lt16 : ∀ h : Nat, h < 16 → 128 ||| h = 128 + h := by decide

theorem testBit7_of_lt16 : ∀ h : Nat, h < 16 → (128 + h).testBit 7 = true := by decide

theorem testBit7_small : ∀ h : Nat, h < 16 → h.testBit 7 = false := by decide

/-
 * Specification-side header decoder (section 4.2 layout read back)
-/

/-- Modelled from the spec: the data-PDU header layout of §4.2 read back.  The
SN width is recovered from the byte count (2 bytes for 12-bit, 3 for 18-bit),
the bearer kind from bit 7 of byte 0, and the SN from the layout's bit
slices. -/
def read_data_pdu_header : List Byte → Option (rb_kind × Nat × Nat)
  | [b0, b1] =>
    some (if b0.testBit 7 then rb_kind.drb else rb_kind.srb, 12,
          b0 % 16 * 256 + b1)
  | [b0, b1, b2] =>
    some (if b0.testBit 7 then rb_kind.drb else rb_kind.srb, 18,
          b0 % 4 * 65536 + b1 * 256 + b2)
  | _ => none

theorem read2 (b0 b1 : Byte) :
    read_data_pdu_header [b0, b1] =
      some (if b0.testBit 7 then rb_kind.drb else rb_kind.srb, 12,
            b0 % 16 * 256 + b1) := rfl

theorem read3 (b0 b1 b2 : Byte) :
    read_data_pdu_header [b0, b1, b2] =
      some (if b0.testBit 7 then rb_kind.drb else rb_kind.srb, 18,
            b0 % 4 * 65536 + b1 * 256 + b2) := rfl

/-- C8: header encoding is a round-trip.  For every valid triple (bearer
kind, sn_size ∈ \x7b12, 18\x7d with SRBs restricted to 12 bits, sn < 2^sn_size)
the encoder emits the specified layout — byte 0 bit 7 set exactly for DRBs,
12-bit SNs packed as byte0[3:0] = SN[11:8], byte1 = SN[7:0], 18-bit SNs packed
as byte0[1:0] = SN[17:16], byte1 = SN[15:8], byte2 = SN[7:0] — and decoding
the produced bytes recovers the same triple. -/
theorem header_roundtrip (e : pdcp_entity_tx) (sn : Nat)
    (hvalid : e.cfg.sn_size = 12 ∨ e.cfg.sn_size = 18)
    (hsrb : e.is_srb = true → e.cfg.sn_size = 12)
    (hsn : sn < 2 ^ e.cfg.sn_size) :
    (write_data_pdu_header e sn).bind read_data_pdu_header =
      some (e.rb_type, e.cfg.sn_size, sn) ∧
    (e.cfg.sn_size = 12 →
      write_data_pdu_header e sn =
        some [(if e.is_drb then 128 else 0) + sn / 256 % 16, sn % 256]) ∧
    (e.cfg.sn_size = 18 →
      write_data_pdu_header e sn =
        some [(if e.is_drb then 128 else 0) + sn / 65536 % 4,
              sn / 256 % 256, sn % 256]) := by
  have h16 : sn / 256 % 16 < 16 := Nat.mod_lt _ (by norm_num)
  have h4 : sn / 65536 % 4 < 4 := Nat.mod_lt _ (by norm_num)
  cases hrb : e.rb_type with
  | srb =>
    have hs : e.is_srb = true := by simp [pdcp_entity_tx.is_srb, hrb]
    have hd : e.is_drb = false := by simp [pdcp_entity_tx.is_drb, hrb]
    have h12 : e.cfg.sn_size = 12 := hsrb hs
    rw [h12] at hsn
    have henc : write_data_pdu_header e sn =
        some [sn / 256 % 16, sn % 256] := by
      unfold write_data_pdu_header
      rw [if_neg (by simp [hs, h12]), h12]
      simp only [hd, Bool.false_eq_true, if_false]
      rw [mask_f00_shift, mask_ff, Nat.zero_or]
    have hdec : read_data_pdu_header [sn / 256 % 16, sn % 256] =
        some (rb_kind.srb, 12, sn) := by
      rw [read2, testBit7_small _ h16]
      simp only [Bool.false_eq_true, if_false]
      have hval : sn / 256 % 16 % 16 * 256 + sn % 256 = sn := by omega
      rw [hval]
    refine ⟨?_, fun _ => ?_, fun h18 => absurd (h12 ▸ h18) (by norm_num)⟩
    · rw [henc, Option.some_bind, hdec, h12]
    · simp only [hd, Bool.false_eq_true, if_false, Nat.zero_add]
      exact henc
  | drb =>
    have hs : e.is_srb = false := by simp [pdcp_entity_tx.is_srb, hrb]
    have hd : e.is_drb = true := by simp [pdcp_entity_tx.is_drb, hrb]
    cases hvalid with
    | inl h12 =>
      rw [h12] at hsn
      have henc : write_data_pdu_header e sn =
          some [128 + sn / 256 % 16, sn % 256] := by
        unfold write_data_pdu_header
        rw [if_neg (by simp [hs]), h12]
        simp only [hd, if_true]
        rw [mask_f00_shift, mask_ff, lor128_of_lt16 _ h16]
      have hdec : read_data_pdu_header [128 + sn / 256 % 16, sn % 256] =
          some (rb_kind.drb, 12, sn) := by
        rw [read2, testBit7_of_lt16 _ h16]
        simp only [if_true]
        have hval : (128 + sn / 256 % 16) % 16 * 256 + sn % 256 = sn := by omega
        rw [hval]
      refine ⟨?_, fun _ => ?_, fun h18 => absurd (h12 ▸ h18) (by norm_num)⟩
      · rw [henc, Option.some_bind, hdec, h12]
      · simp only [hd, if_true]
        exact henc
    | inr h18 =>
      rw [h18] at hsn
      have henc : write_data_pdu_header e sn =
          some [128 + sn / 65536 % 4, sn / 256 % 256, sn % 256] := by
        unfold write_data_pdu_header
        rw [if_neg (by simp [hs]), h18]
        simp only [hd, if_true]
        rw [mask_30000_shift, mask_ff00_shift, mask_ff,
          lor128_of_lt16 _ (by omega)]
      have hdec : read_data_pdu_header
            [128 + sn / 65536 % 4, sn / 256 % 256, sn % 256] =
          some (rb_kind.drb, 18, sn) := by
        rw [read3, testBit7_of_lt16 _ (by omega)]
        simp only [if_true]
        have hval : (128 + sn / 65536 % 4) % 4 * 65536 + sn / 256 % 256 * 256 +
            sn % 256 = sn := by omega
        rw [hval]
      refine ⟨?_, fun h12 => absurd (h18 ▸ h12) (by norm_num), fun _ => ?_⟩
      · rw [henc, Option.some_bind, hdec, h18]
      · simp only [hd, if_true]
        exact henc

/-- Witness for C8: the 18-bit DRB encoder at SN 0x2ABCD round-trips. -/
def ent18 : pdcp_entity_tx :=
  { cfg := { sn_size := 18
             rlc_mode := pdcp_rlc_mode.am
             discard_timer := pdcp_discard_timer.not_configured
             max_count := { notify := 1000, hard := 4000 }
             status_report_required := false }
    sec_cfg := keys0
    rb_type := rb_kind.drb
    lcid := 1
    direction := security_direction.downlink
    integrity_enabled := false
    ciphering_enabled := false
    compile_status_report := [] }

theorem header_roundtrip_witness :
    (ent18.cfg.sn_size = 12 ∨ ent18.cfg.sn_size = 18) ∧
    175053 < 2 ^ ent18.cfg.sn_size ∧
    (write_data_pdu_header ent18 175053).bind read_data_pdu_header =
      some (ent18.rb_type, ent18.cfg.sn_size, 175053) :=
  ⟨by decide, by decide,
   (header_roundtrip ent18 175053 (by decide) (by decide) (by decide)).1⟩

/-
 * Status-report ingress: characterisation of the bitmap walk
-/

/-- The COUNTs selected by the set bits of a status-report bitmap, with the
working COUNT incremented (as a 32-bit value) before each bit. -/
def set_counts : Nat → List Bool → List Nat
  | _, [] => []
  | fmc, b :: rest =>
    let fmc1 := (fmc + 1) % 2 ^ 32
    if b then fmc1 :: set_counts fmc1 rest else set_counts fmc1 rest

/-- The bitmap walk erases exactly the selected COUNTs and raises one
on_discard_pdu per set bit, present in the map or not. -/
theorem bitmap_loop_eq (bits : List Bool) :
    ∀ (fmc : Nat) (m : List (Nat × List Byte)),
      bitmap_loop fmc bits m =
        ((set_counts fmc bits).foldl map_erase m,
         (set_counts fmc bits).map event.discard_pdu) := by
  induction bits with
  | nil => intro fmc m; rfl
  | cons b rest ih =>
    intro fmc m
    cases b with
    | false => simp [bitmap_loop, set_counts, ih]
    | true => simp [bitmap_loop, set_counts, ih]

/-- The selected COUNTs in closed form: (FMC + 1 + i) mod 2^32 for every set
bit index i. -/
theorem set_counts_closed (bits : List Bool) :
    ∀ fmc : Nat,
      set_counts fmc bits =
        ((List.range bits.length).filter (fun i => bits.getD i false)).map
          (fun i => (fmc + 1 + i) % 2 ^ 32) := by
  induction bits with
  | nil => intro fmc; rfl
  | cons b rest ih =>
    intro fmc
    have hshift : ((List.range rest.length).filter
          (fun i => rest.getD i false)).map
            (fun i => ((fmc + 1) % 2 ^ 32 + 1 + i) % 2 ^ 32) =
        ((List.range rest.length).filter (fun i => rest.getD i false)).map
            (fun i => (fmc + 1 + (i + 1)) % 2 ^ 32) := by
      have hfun : (fun i => ((fmc + 1) % 2 ^ 32 + 1 + i) % 2 ^ 32) =
          (fun i : Nat => (fmc + 1 + (i + 1)) % 2 ^ 32) := by
        funext i
        omega
      rw [hfun]
    have hrange : List.range (b :: rest).length =
        0 :: (List.range rest.length).map (· + 1) :=
      List.range_succ_eq_map rest.length
    cases b with
    | false =>
      simp only [set_counts, if_false]
      rw [ih ((fmc + 1) % 2 ^ 32), hshift, hrange]
      simp only [List.filter_cons, List.getD_cons_zero, Bool.false_eq_true,
        if_false, List.filter_map, List.map_map]
      rfl
    | true =>
      simp only [set_counts, if_true]
      rw [ih ((fmc + 1) % 2 ^ 32), hshift, hrange]
      simp only [List.filter_cons, List.getD_cons_zero, if_true,
        List.filter_map, List.map_map, List.map_cons]
      rfl

/-
 * Bit-stream computation lemmas
-/

theorem byte_bits_zero : byte_bits 0 = List.replicate 8 false := by decide

theorem buffer_bits_cons (b : Byte) (rest : List Byte) :
    buffer_bits (b :: rest) = byte_bits b ++ buffer_bits rest := rfl

theorem buffer_bits_length (l : List Byte) :
    (buffer_bits l).length = 8 * l.length := by
  induction l with
  | nil => rfl
  | cons b rest ih =>
    rw [buffer_bits_cons]
    simp [byte_bits, ih]
    omega

theorem bits_val_replicate_false :
    ∀ n : Nat, bits_val (List.replicate n false) = 0 := by
  intro n
  induction n with
  | zero => rfl
  | succ k ih =>
    rw [List.replicate_succ]
    simpa [bits_val] using ih

theorem unpack_replicate_false (n k : Nat) (bs : List Bool) (h : n ≤ k) :
    unpack n (List.replicate k false ++ bs) =
      (0, List.replicate (k - n) false ++ bs) := by
  unfold unpack
  rw [if_pos (by simp; omega)]
  rw [List.take_append_of_le_length (by simp [h]),
    List.drop_append_of_le_length (by simp [h])]
  rw [List.take_replicate, List.drop_replicate, Nat.min_eq_left h,
    bits_val_replicate_false]

/-- The outcome handle_status_report produces on a well-formed report: the
pre-FMC prune of the map with one on_discard_pdu per erased entry, then the
bitmap walk with one on_discard_pdu per set bit. -/
def prune_result (st : pdcp_tx_state) (fmc : Nat) (bits : List Bool) :
    pdcp_tx_state × List event :=
  let kept := st.discard_timers_map.filter (fun kv => !decide (kv.1 < fmc))
  let dropped := st.discard_timers_map.filter (fun kv => decide (kv.1 < fmc))
  ({ st with discard_timers_map := (set_counts fmc bits).foldl map_erase kept },
   dropped.map (fun kv => event.discard_pdu kv.1) ++
     (set_counts fmc bits).map event.discard_pdu)

/-- C4 (amended): a well-formed status report (valid header byte 0x00, a full
32-bit FMC, then bitmap bytes) prunes every discard-map entry with COUNT below
FMC — notifying on_discard_pdu once per erased entry — and then walks the
bitmap erasing the COUNTs (FMC + 1 + i) mod 2^32 of the set bits b_i, raising
on_discard_pdu once per set bit whether or not the COUNT is present in the
map; a set bit whose COUNT is absent erases nothing but still raises the
notification. -/
theorem status_report_prune (st : pdcp_tx_state) (rest : List Byte)
    (h4 : 4 ≤ rest.length) :
    handle_status_report st (0 :: rest) =
      prune_result st (bits_val ((buffer_bits rest).take 32))
        ((buffer_bits rest).drop 32) ∧
    set_counts (bits_val ((buffer_bits rest).take 32))
        ((buffer_bits rest).drop 32) =
      ((List.range ((buffer_bits rest).drop 32).length).filter
          (fun i => ((buffer_bits rest).drop 32).getD i false)).map
        (fun i => (bits_val ((buffer_bits rest).take 32) + 1 + i) % 2 ^ 32) := by
  have hlen : 32 ≤ (buffer_bits rest).length := by
    rw [buffer_bits_length]
    omega
  have e1 : unpack 1 (buffer_bits (0 :: rest)) =
      (0, List.replicate 7 false ++ buffer_bits rest) := by
    rw [buffer_bits_cons, byte_bits_zero]
    exact unpack_replicate_false 1 8 _ (by norm_num)
  have e2 : unpack 3 (List.replicate 7 false ++ buffer_bits rest) =
      (0, List.replicate 4 false ++ buffer_bits rest) :=
    unpack_replicate_false 3 7 _ (by norm_num)
  have e3 : unpack 4 (List.replicate 4 false ++ buffer_bits rest) =
      (0, buffer_bits rest) :=
    unpack_replicate_false 4 4 _ (by norm_num)
  have e4 : unpack 32 (buffer_bits rest) =
      (bits_val ((buffer_bits rest).take 32), (buffer_bits rest).drop 32) := by
    unfold unpack
    rw [if_pos hlen]
  constructor
  · simp only [handle_status_report, e1, e2, e3, e4, bitmap_loop_eq, prune_result]
    norm_num
  · exact set_counts_closed _ _

/-- A discard map holding the COUNTs 3, 4, 5, 7 and 9. -/
def stM5 : pdcp_tx_state :=
  { st0 with discard_timers_map :=
      [(3, [51]), (4, [52]), (5, [53]), (7, [55]), (9, [57])] }

/-- The state expected after the specification prune scenario: 5, 7, 9 kept. -/
def stM5post : pdcp_tx_state :=
  { st0 with discard_timers_map := [(5, [53]), (7, [55]), (9, [57])] }

/-- Witness for the C4 theorem: the specification's prune scenario (FMC 5,
bitmap 0b10100000) on the map 3/4/5/7/9 erases 3 and 4 below FMC, erases
nothing for the set bits at COUNTs 6 and 8, and leaves 5, 7 and 9. -/
theorem status_report_prune_witness :
    4 ≤ ([0, 0, 0, 5, 160] : List Byte).length ∧
    handle_status_report stM5 [0, 0, 0, 0, 5, 160] =
      (stM5post,
       [event.discard_pdu 3, event.discard_pdu 4,
        event.discard_pdu 6, event.discard_pdu 8]) := by
  refine ⟨by norm_num, ?_⟩
  have h := (status_report_prune stM5 [0, 0, 0, 5, 160] (by norm_num)).1
  exact h.trans (by decide)

/-- Counterexample to C4 as stated: on an empty discard map, a status report
with FMC 0 and the single set bit b_0 erases no entry at all, yet
lower_dn.on_discard_pdu(1) is invoked — the claimed "once per erased entry
and for no other COUNT" and "a set bit whose COUNT has no discard-map entry
is a no-op" both fail. -/
theorem status_report_discard_counterexample :
    st0.discard_timers_map = [] ∧
    handle_status_report st0 [0, 0, 0, 0, 0, 128] =
      (st0, [event.discard_pdu 1]) := by
  exact ⟨rfl, by decide⟩

/-
 * Malformed status reports
-/

theorem unpack_one_cons (x : Bool) (xs : List Bool) :
    unpack 1 (x :: xs) = (if x then 1 else 0, xs) := by
  simp [unpack, bits_val]

theorem unpack_three_cons (a b c : Bool) (xs : List Bool) :
    unpack 3 (a :: b :: c :: xs) = (bits_val [a, b, c], xs) := by
  simp [unpack]

theorem unpack_four_cons (a b c d : Bool) (xs : List Bool) :
    unpack 4 (a :: b :: c :: d :: xs) = (bits_val [a, b, c, d], xs) := by
  simp [unpack]

theorem unpack_too_short (n : Nat) (bs : List Bool) (h : bs.length < n) :
    unpack n bs = (0, []) := by
  unfold unpack
  rw [if_neg (by omega)]

theorem filter_lt_zero_eq_nil (m : List (Nat × List Byte)) :
    m.filter (fun kv => decide (kv.1 < 0)) = [] := by
  induction m with
  | nil => rfl
  | cons kv rest ih => simp [List.filter_cons, ih]

theorem filter_not_lt_zero_eq_self (m : List (Nat × List Byte)) :
    m.filter (fun kv => !decide (kv.1 < 0)) = m := by
  induction m with
  | nil => rfl
  | cons kv rest ih => simp [List.filter_cons, ih]

/-- C5: a status report whose D/C bit is not control, whose CPT field is not
status_report, whose reserved bits are non-zero, or which is too short to hold
the one-byte header and the 32-bit FMC, leaves the entity state untouched: no
discard-map entry is erased, no timer cancelled, and lower_dn.on_discard_pdu
is never invoked. -/
theorem malformed_status_report (st : pdcp_tx_state) (status : List Byte)
    (h : status.length < 5 ∨
         bits_val ((buffer_bits status).take 1) ≠ 0 ∨
         bits_val (((buffer_bits status).drop 1).take 3) ≠ 0 ∨
         bits_val (((buffer_bits status).drop 4).take 4) ≠ 0) :
    handle_status_report st status = (st, []) := by
  match status with
  | [] =>
    simp [handle_status_report, buffer_bits, unpack, bitmap_loop,
      filter_lt_zero_eq_nil, filter_not_lt_zero_eq_self]
  | b :: rest =>
    have hbb : buffer_bits (b :: rest) =
        b.testBit 7 :: b.testBit 6 :: b.testBit 5 :: b.testBit 4 ::
        b.testBit 3 :: b.testBit 2 :: b.testBit 1 :: b.testBit 0 ::
        buffer_bits rest := by
      rw [buffer_bits_cons]
      rfl
    by_cases h7 : b.testBit 7
    · simp [handle_status_report, hbb, unpack_one_cons, h7]
    · simp only [handle_status_report, hbb, unpack_one_cons, h7, Bool.false_eq_true,
        if_false, unpack_three_cons, unpack_four_cons]
      rw [if_neg (by norm_num : ¬ (0 : Nat) ≠ 0)]
      by_cases hcpt : bits_val [b.testBit 6, b.testBit 5, b.testBit 4] = 0
      · rw [if_neg (not_not_intro hcpt)]
        by_cases hrsv :
            bits_val [b.testBit 3, b.testBit 2, b.testBit 1, b.testBit 0] = 0
        · rw [if_neg (not_not_intro hrsv)]
          have hshort : rest.length < 4 := by
            rcases h with hlen | hdc | hc | hr
            · simp only [List.length_cons] at hlen
              omega
            · rw [hbb] at hdc
              simp only [List.take_succ_cons, List.take_zero] at hdc
              simp [bits_val, h7] at hdc
            · rw [hbb] at hc
              simp only [List.drop_succ_cons, List.drop_zero,
                List.take_succ_cons, List.take_zero] at hc
              exact absurd hcpt hc
            · rw [hbb] at hr
              simp only [List.drop_succ_cons, List.drop_zero,
                List.take_succ_cons, List.take_zero] at hr
              exact absurd hrsv hr
          rw [unpack_too_short 32 _ (by rw [buffer_bits_length]; omega)]
          simp [bitmap_loop, filter_lt_zero_eq_nil, filter_not_lt_zero_eq_self]
        · rw [if_pos hrsv]
      · rw [if_pos hcpt]

/-- Witness for C5: a one-byte report with a bad CPT field is dropped without
touching the map. -/
theorem malformed_status_report_witness :
    (([32] : List Byte).length < 5 ∨
     bits_val ((buffer_bits [32]).take 1) ≠ 0 ∨
     bits_val (((buffer_bits [32]).drop 1).take 3) ≠ 0 ∨
     bits_val (((buffer_bits [32]).drop 4).take 4) ≠ 0) ∧
    handle_status_report stM5 [32] = (stM5, []) :=
  ⟨by decide, malformed_status_report stM5 [32] (by decide)⟩

/-
 * handle_sdu characterisation
-/

/-- The COUNT attached to a delivered PDU, when one is attached. -/
def data_count : event → Option Nat
  | event.new_pdu _ c => c
  | _ => none

/-- Whether an event is a PDU delivery to lower_dn.on_new_pdu. -/
def is_new_pdu : event → Bool
  | event.new_pdu _ _ => true
  | _ => false

/-- The state handle_sdu leaves behind when the SDU is accepted. -/
def post_sdu_state (p : security_primitives) (e : pdcp_entity_tx)
    (st : pdcp_tx_state) (sdu hdr : List Byte) : pdcp_tx_state :=
  let protected_buf := apply_ciphering_and_integrity_protection p e hdr sdu st.tx_next
  let cached : List Byte :=
    if e.cfg.rlc_mode = pdcp_rlc_mode.um then [] else protected_buf
  let m :=
    if e.cfg.discard_timer ≠ pdcp_discard_timer.infinity ∧
       e.cfg.discard_timer ≠ pdcp_discard_timer.not_configured then
      map_insert st.discard_timers_map st.tx_next cached
    else st.discard_timers_map
  { tx_next := (st.tx_next + 1) % 2 ^ 32
    max_count_notified :=
      st.max_count_notified || decide (e.cfg.max_count.notify ≤ st.tx_next)
    max_count_overflow := st.max_count_overflow
    discard_timers_map := m
    num_sdus := st.num_sdus + 1
    num_pdus := st.num_pdus + 1
    num_discard_timeouts := st.num_discard_timeouts }

/-- The events handle_sdu emits when the SDU is accepted. -/
def post_sdu_events (p : security_primitives) (e : pdcp_entity_tx)
    (st : pdcp_tx_state) (sdu hdr : List Byte) : List event :=
  let protected_buf := apply_ciphering_and_integrity_protection p e hdr sdu st.tx_next
  (if e.cfg.max_count.notify ≤ st.tx_next ∧ st.max_count_notified = false then
     [event.max_count_reached]
   else []) ++
    [event.new_pdu protected_buf (if e.is_drb then some st.tx_next else none)]

/-- Above the hard cap, handle_sdu counts the SDU, latches the overflow flag,
signals on_protocol_failure exactly on the first such call, and delivers
nothing. -/
theorem handle_sdu_refuse (p : security_primitives) (e : pdcp_entity_tx)
    (st : pdcp_tx_state) (sdu : List Byte)
    (hh : e.cfg.max_count.hard ≤ st.tx_next) :
    handle_sdu p e st sdu =
      some ({ st with num_sdus := st.num_sdus + 1, max_count_overflow := true },
            if st.max_count_overflow then [] else [event.protocol_failure]) := by
  obtain ⟨tx, mn, mo, dm, ns, np, nd⟩ := st
  unfold handle_sdu
  rw [if_pos (by simpa using hh)]
  cases mo <;> simp

/-- Below the hard cap and with the header written, handle_sdu is fully
determined:  one data PDU goes down, TX_NEXT advances, the notification latch
absorbs the soft-threshold check. -/
theorem handle_sdu_accept (p : security_primitives) (e : pdcp_entity_tx)
    (st : pdcp_tx_state) (sdu hdr : List Byte)
    (hh : st.tx_next < e.cfg.max_count.hard)
    (hhdr : write_data_pdu_header e (SN e.cfg.sn_size st.tx_next) = some hdr) :
    handle_sdu p e st sdu =
      some (post_sdu_state p e st sdu hdr, post_sdu_events p e st sdu hdr) := by
  obtain ⟨tx, mn, mo, dm, ns, np, nd⟩ := st
  unfold handle_sdu
  rw [if_neg (by simpa using Nat.not_le.mpr hh)]
  simp only at hhdr
  by_cases hn : tx ≥ e.cfg.max_count.notify
  · cases mn
    · rw [if_pos (by simpa using hn)]
      simp only [Bool.false_eq_true, if_false]
      rw [hhdr]
      by_cases ha : e.cfg.discard_timer ≠ pdcp_discard_timer.infinity ∧
          e.cfg.discard_timer ≠ pdcp_discard_timer.not_configured <;>
        simp [post_sdu_state, post_sdu_events, write_data_pdu_to_lower_layers, hn, ha]
    · rw [if_pos (by simpa using hn)]
      simp only [if_true]
      rw [hhdr]
      by_cases ha : e.cfg.discard_timer ≠ pdcp_discard_timer.infinity ∧
          e.cfg.discard_timer ≠ pdcp_discard_timer.not_configured <;>
        simp [post_sdu_state, post_sdu_events, write_data_pdu_to_lower_layers, hn, ha]
  · rw [if_neg (by simpa using hn)]
    rw [hhdr]
    by_cases ha : e.cfg.discard_timer ≠ pdcp_discard_timer.infinity ∧
        e.cfg.discard_timer ≠ pdcp_discard_timer.not_configured <;>
      simp [post_sdu_state, post_sdu_events, write_data_pdu_to_lower_layers, hn, ha]

/-
 * Per-operation preservation lemmas
-/

theorem mem_map_erase (k : Nat) (x : Nat × List Byte) :
    ∀ m : List (Nat × List Byte), x ∈ map_erase m k → x ∈ m := by
  intro m
  induction m with
  | nil => intro h; exact h
  | cons kv rest ih =>
    intro h
    unfold map_erase at h
    by_cases he : kv.1 = k
    · rw [if_pos he] at h
      exact List.mem_cons_of_mem kv h
    · rw [if_neg he] at h
      rcases List.mem_cons.mp h with h1 | h1
      · exact h1 ▸ List.mem_cons_self kv rest
      · exact List.mem_cons_of_mem kv (ih h1)

theorem mem_foldl_map_erase (x : Nat × List Byte) :
    ∀ (l : List Nat) (m : List (Nat × List Byte)),
      x ∈ l.foldl map_erase m → x ∈ m := by
  intro l
  induction l with
  | nil => intro m h; exact h
  | cons c rest ih =>
    intro m h
    exact mem_map_erase c x m (ih (map_erase m c) h)

theorem mem_map_insert (m : List (Nat × List Byte)) (k : Nat) (v : List Byte)
    (x : Nat × List Byte) : x ∈ map_insert m k v → x ∈ m ∨ x = (k, v) := by
  induction m with
  | nil =>
    intro h
    simp [map_insert] at h
    exact Or.inr h
  | cons kv rest ih =>
    intro h
    unfold map_insert at h
    by_cases h1 : k < kv.1
    · rw [if_pos h1] at h
      rcases List.mem_cons.mp h with h2 | h2
      · exact Or.inr h2
      · exact Or.inl h2
    · rw [if_neg h1] at h
      by_cases h2 : k = kv.1
      · rw [if_pos h2] at h
        exact Or.inl h
      · rw [if_neg h2] at h
        rcases List.mem_cons.mp h with h3 | h3
        · exact Or.inl (h3 ▸ List.mem_cons_self kv rest)
        · rcases ih h3 with h4 | h4
          · exact Or.inl (List.mem_cons_of_mem kv h4)
          · exact Or.inr h4

/-- Consequences of a trace made of on_discard_pdu calls only. -/
theorem discard_only_props (l : List event)
    (h : ∀ ev ∈ l, ∃ c, ev = event.discard_pdu c) :
    l.filter is_new_pdu = [] ∧ l.count event.protocol_failure = 0 ∧
    l.count event.max_count_reached = 0 ∧ l.filterMap data_count = [] := by
  induction l with
  | nil => simp
  | cons ev rest ih =>
    obtain ⟨c, hc⟩ := h ev (List.mem_cons_self ev rest)
    have hrest := ih fun x hx => h x (List.mem_cons_of_mem ev hx)
    subst hc
    simp [List.filter_cons, List.count_cons, is_new_pdu, data_count, hrest]

/-- handle_status_report never touches TX_NEXT, the latches or the metrics,
only shrinks the discard map, and only raises on_discard_pdu. -/
theorem handle_status_report_spec (st : pdcp_tx_state) (b : List Byte) :
    (handle_status_report st b).1.tx_next = st.tx_next ∧
    (handle_status_report st b).1.max_count_notified = st.max_count_notified ∧
    (handle_status_report st b).1.max_count_overflow = st.max_count_overflow ∧
    (∀ ev ∈ (handle_status_report st b).2, ∃ c, ev = event.discard_pdu c) ∧
    (∀ kv ∈ (handle_status_report st b).1.discard_timers_map,
      kv ∈ st.discard_timers_map) := by
  unfold handle_status_report
  dsimp only
  split_ifs with h1 h2 h3
  · exact ⟨rfl, rfl, rfl, by simp, by simp⟩
  · exact ⟨rfl, rfl, rfl, by simp, by simp⟩
  · exact ⟨rfl, rfl, rfl, by simp, by simp⟩
  · rw [bitmap_loop_eq]
    refine ⟨rfl, rfl, rfl, ?_, ?_⟩
    · intro ev hev
      rcases List.mem_append.mp hev with hm | hm
      · obtain ⟨kv, _, hkv⟩ := List.mem_map.mp hm
        exact ⟨kv.1, hkv.symm⟩
      · obtain ⟨c, _, hc⟩ := List.mem_map.mp hm
        exact ⟨c, hc.symm⟩
    · intro kv hkv
      have h4 := mem_foldl_map_erase kv _ _ hkv
      exact List.mem_of_mem_filter h4

/-- The discard-timer callback never touches TX_NEXT or the latches, only
erases its entry, and only raises on_discard_pdu. -/
theorem discard_callback_spec (st : pdcp_tx_state) (c : Nat) :
    (discard_callback st c).1.tx_next = st.tx_next ∧
    (discard_callback st c).1.max_count_notified = st.max_count_notified ∧
    (discard_callback st c).1.max_count_overflow = st.max_count_overflow ∧
    (∀ ev ∈ (discard_callback st c).2, ∃ c1, ev = event.discard_pdu c1) ∧
    (∀ kv ∈ (discard_callback st c).1.discard_timers_map,
      kv ∈ st.discard_timers_map) := by
  refine ⟨rfl, rfl, rfl, by simp [discard_callback], ?_⟩
  intro kv hkv
  exact mem_map_erase c kv _ hkv

/-- send_status_report only ships one uncounted control PDU, when enabled. -/
theorem send_status_report_spec (e : pdcp_entity_tx) (st : pdcp_tx_state) :
    (send_status_report e st).1.tx_next = st.tx_next ∧
    (send_status_report e st).1.max_count_notified = st.max_count_notified ∧
    (send_status_report e st).1.max_count_overflow = st.max_count_overflow ∧
    (send_status_report e st).1.discard_timers_map = st.discard_timers_map ∧
    (∀ ev ∈ (send_status_report e st).2, ∃ buf, ev = event.new_pdu buf none) := by
  unfold send_status_report
  split_ifs with h1
  · exact ⟨rfl, rfl, rfl, rfl, by simp [write_control_pdu_to_lower_layers]⟩
  · exact ⟨rfl, rfl, rfl, rfl, by simp⟩

/-- The state data_recovery leaves behind on an AM DRB: only the PDU metric
moves. -/
def post_recovery_state (e : pdcp_entity_tx) (st : pdcp_tx_state) : pdcp_tx_state :=
  let k := (if e.cfg.status_report_required then 1 else 0) + st.discard_timers_map.length
  { st with num_pdus := st.num_pdus + k }

/-- The events data_recovery emits on an AM DRB: the optional status report,
then one data PDU per cached entry in map order. -/
def post_recovery_events (e : pdcp_entity_tx) (st : pdcp_tx_state) : List event :=
  (if e.cfg.status_report_required then
     [event.new_pdu e.compile_status_report none]
   else []) ++
    st.discard_timers_map.map (fun kv => event.new_pdu kv.2 (some kv.1))

/-- data_recovery on an AM DRB: status report first when required, then the
cached PDUs in ascending COUNT order; the map, timers and TX_NEXT stay. -/
theorem data_recovery_spec (e : pdcp_entity_tx) (st : pdcp_tx_state)
    (hd : e.is_drb = true) (ham : e.cfg.rlc_mode = pdcp_rlc_mode.am) :
    data_recovery e st = some (post_recovery_state e st, post_recovery_events e st) := by
  unfold data_recovery
  rw [if_pos (by simp [hd, ham])]
  by_cases hreq : e.cfg.status_report_required
  · simp only [hreq, if_true]
    rw [send_status_report, if_pos hreq, write_control_pdu_to_lower_layers]
    rw [data_recovery_loop_spec]
    simp [post_recovery_state, post_recovery_events, hreq, hd]
    omega
  · simp only [hreq, if_false]
    rw [data_recovery_loop_spec]
    simp [post_recovery_state, post_recovery_events, hreq, hd]

/-- data_recovery faults fast on anything that is not an AM DRB. -/
theorem data_recovery_none (e : pdcp_entity_tx) (st : pdcp_tx_state)
    (h : ¬(e.is_drb = true ∧ e.cfg.rlc_mode = pdcp_rlc_mode.am)) :
    data_recovery e st = none := by
  unfold data_recovery
  rw [if_neg (by simpa using fun h1 h2 => h ⟨h1, h2⟩)]

/-- Below the hard cap, a failing header write aborts handle_sdu. -/
theorem handle_sdu_fault (p : security_primitives) (e : pdcp_entity_tx)
    (st : pdcp_tx_state) (sdu : List Byte)
    (hh : st.tx_next < e.cfg.max_count.hard)
    (hhdr : write_data_pdu_header e (SN e.cfg.sn_size st.tx_next) = none) :
    handle_sdu p e st sdu = none := by
  obtain ⟨tx, mn, mo, dm, ns, np, nd⟩ := st
  unfold handle_sdu
  rw [if_neg (by simpa using Nat.not_le.mpr hh)]
  simp only at hhdr
  by_cases hn : tx ≥ e.cfg.max_count.notify
  · cases mn <;> simp [hn, hhdr]
  · simp [hn, hhdr]

/-- Consequences of a trace made of on_new_pdu calls only. -/
theorem new_pdu_only_props (l : List event)
    (h : ∀ ev ∈ l, ∃ buf c, ev = event.new_pdu buf c) :
    l.count event.protocol_failure = 0 ∧ l.count event.max_count_reached = 0 := by
  induction l with
  | nil => simp
  | cons ev rest ih =>
    obtain ⟨buf, c, hc⟩ := h ev (List.mem_cons_self ev rest)
    have hrest := ih fun x hx => h x (List.mem_cons_of_mem ev hx)
    subst hc
    simp [List.count_cons, hrest]

/-- Uncounted control PDUs contribute no attached COUNT. -/
theorem control_only_filterMap (l : List event)
    (h : ∀ ev ∈ l, ∃ buf, ev = event.new_pdu buf none) :
    l.filterMap data_count = [] := by
  induction l with
  | nil => simp
  | cons ev rest ih =>
    obtain ⟨buf, hc⟩ := h ev (List.mem_cons_self ev rest)
    have hrest := ih fun x hx => h x (List.mem_cons_of_mem ev hx)
    subst hc
    simp [data_count, hrest]

/-- Concatenation of two adjacent COUNT ranges. -/
theorem range_merge (a b c : Nat) (hab : a ≤ b) (hbc : b ≤ c) :
    List.range' a (b - a) ++ List.range' b (c - b) = List.range' a (c - a) := by
  have h1 : a + 1 * (b - a) = b := by omega
  have h2 : (c - b) + (b - a) = c - a := by omega
  calc List.range' a (b - a) ++ List.range' b (c - b)
      = List.range' a (b - a) ++ List.range' (a + 1 * (b - a)) (c - b) := by rw [h1]
    _ = List.range' a ((c - b) + (b - a)) := List.range'_append a (b - a) (c - b) 1
    _ = List.range' a (c - a) := by rw [h2]

/-- The default arm of the header codec: an invalid sn_size leaves only the
D/C byte in the header. -/
theorem write_header_default (e : pdcp_entity_tx) (sn : Nat)
    (h12 : e.cfg.sn_size ≠ 12) (h18 : e.cfg.sn_size ≠ 18) :
    write_data_pdu_header e sn = some [if e.is_drb then 128 else 0] := by
  unfold write_data_pdu_header
  rw [if_neg (by simp [h18])]
  by_cases hd : e.is_drb = true
  · simp only [hd, if_true]
  · simp only [Bool.not_eq_true] at hd
    simp only [hd, Bool.false_eq_true, if_false]

/-- Outside the asserted SRB/18-bit combination the header write always
returns a header. -/
theorem write_header_total (e : pdcp_entity_tx) (sn : Nat)
    (hok : ¬(e.is_srb = true ∧ e.cfg.sn_size = 18)) :
    ∃ hdr, write_data_pdu_header e sn = some hdr := by
  unfold write_data_pdu_header
  rw [if_neg (by simpa using fun h1 h2 => hok ⟨h1, by simpa using h2⟩)]
  dsimp only
  split
  · exact ⟨_, rfl⟩
  · exact ⟨_, rfl⟩
  · exact ⟨_, rfl⟩

/-
 * COUNT sequence lemmas
-/

theorem post_sdu_events_filterMap (p : security_primitives) (e : pdcp_entity_tx)
    (st : pdcp_tx_state) (sdu hdr : List Byte) (hd : e.is_drb = true) :
    (post_sdu_events p e st sdu hdr).filterMap data_count = [st.tx_next] := by
  unfold post_sdu_events
  split_ifs <;> simp [data_count, hd]

theorem post_sdu_events_new_pdu_len (p : security_primitives)
    (e : pdcp_entity_tx) (st : pdcp_tx_state) (sdu hdr : List Byte) :
    ((post_sdu_events p e st sdu hdr).filter is_new_pdu).length = 1 := by
  unfold post_sdu_events
  split_ifs <;> simp [is_new_pdu]

/-- One entity step that is not data_recovery contributes the attached COUNTs
TX_NEXT, TX_NEXT+1, ... of exactly the SDUs it accepts. -/
theorem step_data_counts (p : security_primitives) (e : pdcp_entity_tx)
    (hW : e.cfg.max_count.hard < 2 ^ 32) (hd : e.is_drb = true) (o : op)
    (ho : o ≠ op.recovery) (st : pdcp_tx_state) (r : pdcp_tx_state × List event)
    (h : step p e st o = some r) :
    r.2.filterMap data_count = List.range' st.tx_next (r.1.tx_next - st.tx_next) ∧
    st.tx_next ≤ r.1.tx_next := by
  cases o with
  | sdu b =>
    simp only [step] at h
    by_cases hh : e.cfg.max_count.hard ≤ st.tx_next
    · rw [handle_sdu_refuse p e st b hh] at h
      cases h
      constructor
      · cases hov : st.max_count_overflow <;> simp [hov, data_count, List.range']
      · exact Nat.le_refl _
    · have hlt := Nat.not_le.mp hh
      cases hhdr : write_data_pdu_header e (SN e.cfg.sn_size st.tx_next) with
      | none =>
        rw [handle_sdu_fault p e st b hlt hhdr] at h
        exact absurd h (by simp)
      | some hdr =>
        rw [handle_sdu_accept p e st b hdr hlt hhdr] at h
        cases h
        have htx : (post_sdu_state p e st b hdr).tx_next = st.tx_next + 1 := by
          simp only [post_sdu_state]
          omega
        constructor
        · rw [post_sdu_events_filterMap p e st b hdr hd, htx]
          simp [List.range']
        · rw [htx]
          omega
  | status b =>
    simp only [step] at h
    cases h
    obtain ⟨htx, _, _, hev, _⟩ := handle_status_report_spec st b
    have hprops := discard_only_props _ hev
    rw [hprops.2.2.2, htx]
    simp [List.range']
  | send_status =>
    simp only [step] at h
    cases h
    obtain ⟨htx, _, _, _, hev⟩ := send_status_report_spec e st
    rw [control_only_filterMap _ hev, htx]
    simp [List.range']
  | recovery => exact absurd rfl ho
  | timer_expiry c =>
    simp only [step] at h
    cases h
    obtain ⟨htx, _, _, hev, _⟩ := discard_callback_spec st c
    have hprops := discard_only_props _ hev
    rw [hprops.2.2.2, htx]
    simp [List.range']

/-- Over a recovery-free run, the attached COUNTs form the contiguous range
from the initial TX_NEXT to the final one. -/
theorem run_data_counts (p : security_primitives) (e : pdcp_entity_tx)
    (hW : e.cfg.max_count.hard < 2 ^ 32) (hd : e.is_drb = true) :
    ∀ (ops : List op) (st st1 : pdcp_tx_state) (evs : List event),
      (∀ o ∈ ops, o ≠ op.recovery) →
      run p e st ops = some (st1, evs) →
      evs.filterMap data_count =
        List.range' st.tx_next (st1.tx_next - st.tx_next) ∧
      st.tx_next ≤ st1.tx_next := by
  intro ops
  induction ops with
  | nil =>
    intro st st1 evs _ h
    simp only [run, Option.some_inj] at h
    cases h
    simp [List.range']
  | cons o rest ih =>
    intro st st1 evs hall h
    simp only [run] at h
    cases hstep : step p e st o with
    | none =>
      rw [hstep] at h
      exact absurd h (by simp)
    | some r1 =>
      rw [hstep] at h
      dsimp only at h
      cases hrun : run p e r1.1 rest with
      | none =>
        rw [hrun] at h
        exact absurd h (by simp)
      | some r2 =>
        rw [hrun] at h
        simp only [Option.some_inj] at h
        cases h
        have hs := step_data_counts p e hW hd o
          (hall o (List.mem_cons_self o rest)) st r1 hstep
        have hr := ih r1.1 r2.1 r2.2
          (fun x hx => hall x (List.mem_cons_of_mem o hx)) hrun
        constructor
        · rw [List.filterMap_append, hs.1, hr.1]
          exact range_merge st.tx_next r1.1.tx_next r2.1.tx_next hs.2 hr.2
        · exact Nat.le_trans hs.2 hr.2

/-- C1: over every run made of handle_sdu calls (interleaved with status
reports, timer expiries and status-report emission, but no data recovery) the
COUNTs attached to the data PDUs handed to lower_dn.on_new_pdu form the
gap-free strictly increasing range that starts at the initial TX_NEXT; every
SDU accepted below the hard cap produces exactly one downward PDU and
advances TX_NEXT by exactly one; neither a status report nor a discard-timer
expiry ever changes TX_NEXT. -/
theorem tx_count_sequence :
    (∀ (p : security_primitives) (e : pdcp_entity_tx)
       (st st1 : pdcp_tx_state) (ops : List op) (evs : List event),
       e.cfg.max_count.hard < 2 ^ 32 → e.is_drb = true →
       (∀ o ∈ ops, o ≠ op.recovery) →
       run p e st ops = some (st1, evs) →
       evs.filterMap data_count =
         List.range' st.tx_next (st1.tx_next - st.tx_next) ∧
       st.tx_next ≤ st1.tx_next) ∧
    (∀ (p : security_primitives) (e : pdcp_entity_tx) (st st1 : pdcp_tx_state)
       (sdu : List Byte) (evs : List event),
       e.cfg.max_count.hard < 2 ^ 32 → st.tx_next < e.cfg.max_count.hard →
       handle_sdu p e st sdu = some (st1, evs) →
       (evs.filter is_new_pdu).length = 1 ∧ st1.tx_next = st.tx_next + 1) ∧
    (∀ (st : pdcp_tx_state) (b : List Byte),
       (handle_status_report st b).1.tx_next = st.tx_next) ∧
    (∀ (st : pdcp_tx_state) (c : Nat),
       (discard_callback st c).1.tx_next = st.tx_next) := by
  refine ⟨?_, ?_, ?_, ?_⟩
  · intro p e st st1 ops evs hW hd hall h
    exact run_data_counts p e hW hd ops st st1 evs hall h
  · intro p e st st1 sdu evs hW hlt h
    cases hhdr : write_data_pdu_header e (SN e.cfg.sn_size st.tx_next) with
    | none =>
      rw [handle_sdu_fault p e st sdu hlt hhdr] at h
      exact absurd h (by simp)
    | some hdr =>
      rw [handle_sdu_accept p e st sdu hdr hlt hhdr] at h
      simp only [Option.some_inj] at h
      cases h
      refine ⟨post_sdu_events_new_pdu_len p e st sdu hdr, ?_⟩
      simp only [post_sdu_state]
      omega
  · intro st b
    exact (handle_status_report_spec st b).1
  · intro st c
    exact (discard_callback_spec st c).1

/-- Witness for C1: a two-SDU run of the concrete DRB emits attached COUNTs
0 then 1, and TX_NEXT ends at 2. -/
theorem tx_count_sequence_witness :
    ent0.cfg.max_count.hard < 2 ^ 32 ∧
    run prim0 ent0 st0 [op.sdu [170], op.sdu [187]] =
      some ({ st0 with tx_next := 2, num_sdus := 2, num_pdus := 2 },
            [event.new_pdu [128, 0, 170] (some 0),
             event.new_pdu [128, 1, 187] (some 1)]) ∧
    [event.new_pdu [128, 0, 170] (some 0),
     event.new_pdu [128, 1, 187] (some 1)].filterMap data_count =
      List.range' st0.tx_next
        (({ st0 with tx_next := 2, num_sdus := 2, num_pdus := 2 } :
            pdcp_tx_state).tx_next - st0.tx_next) := by
  refine ⟨by decide, by decide, ?_⟩
  exact (tx_count_sequence.1 prim0 ent0 st0
    { st0 with tx_next := 2, num_sdus := 2, num_pdus := 2 }
    [op.sdu [170], op.sdu [187]]
    [event.new_pdu [128, 0, 170] (some 0), event.new_pdu [128, 1, 187] (some 1)]
    (by decide) (by decide) (by decide) (by decide)).1

/-
 * Hard COUNT cap
-/

/-- From a state at or above the hard cap, a run of SDU submissions, status
reports and timer expiries delivers nothing, keeps TX_NEXT, and raises
on_protocol_failure at most once — never once the latch is set. -/
theorem run_locked (p : security_primitives) (e : pdcp_entity_tx) :
    ∀ (ops : List op) (st st1 : pdcp_tx_state) (evs : List event),
      e.cfg.max_count.hard ≤ st.tx_next →
      (∀ o ∈ ops, (∃ b, o = op.sdu b) ∨ (∃ b, o = op.status b) ∨
        ∃ c, o = op.timer_expiry c) →
      run p e st ops = some (st1, evs) →
      evs.filter is_new_pdu = [] ∧ st1.tx_next = st.tx_next ∧
      evs.count event.protocol_failure ≤
        (if st.max_count_overflow then 0 else 1) ∧
      (st.max_count_overflow = true →
        evs.count event.protocol_failure = 0) := by
  intro ops
  induction ops with
  | nil =>
    intro st st1 evs _ _ h
    simp only [run, Option.some_inj] at h
    cases h
    refine ⟨rfl, rfl, ?_, fun _ => rfl⟩
    split_ifs <;> simp
  | cons o rest ih =>
    intro st st1 evs hh hall h
    simp only [run] at h
    cases hstep : step p e st o with
    | none =>
      rw [hstep] at h
      exact absurd h (by simp)
    | some r1 =>
      rw [hstep] at h
      dsimp only at h
      cases hrun : run p e r1.1 rest with
      | none =>
        rw [hrun] at h
        exact absurd h (by simp)
      | some r2 =>
        rw [hrun] at h
        simp only [Option.some_inj] at h
        cases h
        have hrest := fun x hx => hall x (List.mem_cons_of_mem o hx)
        rcases hall o (List.mem_cons_self o rest) with ⟨b, rfl⟩ | ⟨b, rfl⟩ | ⟨c, rfl⟩
        · simp only [step] at hstep
          rw [handle_sdu_refuse p e st b hh] at hstep
          simp only [Option.some_inj] at hstep
          subst hstep
          have hih := ih _ r2.1 r2.2 (by simpa using hh) hrest hrun
          rw [show ({ st with num_sdus := st.num_sdus + 1, max_count_overflow := true } : pdcp_tx_state).max_count_overflow = true from rfl] at hih
          cases hov : st.max_count_overflow
          · simp only [hov, Bool.false_eq_true, if_false]
            refine ⟨?_, hih.2.1, ?_, ?_⟩
            · simp [List.filter_append, hih.1, is_new_pdu]
            · simp [List.count_append, hih.2.2.2 rfl]
            · intro hc
              exact absurd hc (by simp)
          · simp only [hov, if_true]
            refine ⟨?_, hih.2.1, ?_, ?_⟩
            · simp [List.filter_append, hih.1]
            · simp [List.count_append, hih.2.2.2 rfl]
            · intro _
              simp [List.count_append, hih.2.2.2 rfl]
        · simp only [step, Option.some_inj] at hstep
          subst hstep
          obtain ⟨htx, _, hov, hev, _⟩ := handle_status_report_spec st b
          have hprops := discard_only_props _ hev
          have hih := ih _ r2.1 r2.2 (by rw [htx]; exact hh) hrest hrun
          rw [htx, hov] at hih
          refine ⟨?_, by rw [hih.2.1], ?_, ?_⟩
          · simp [List.filter_append, hih.1, hprops.1]
          · simp [List.count_append, hprops.2.1]
            exact hih.2.2.1
          · intro hc
            simp [List.count_append, hprops.2.1, hih.2.2.2 hc]
        · simp only [step, Option.some_inj] at hstep
          subst hstep
          obtain ⟨htx, _, hov, hev, _⟩ := discard_callback_spec st c
          have hprops := discard_only_props _ hev
          have hih := ih _ r2.1 r2.2 (by rw [htx]; exact hh) hrest hrun
          rw [htx, hov] at hih
          refine ⟨?_, by rw [hih.2.1], ?_, ?_⟩
          · simp [List.filter_append, hih.1, hprops.1]
          · simp [List.count_append, hprops.2.1]
            exact hih.2.2.1
          · intro hc
            simp [List.count_append, hprops.2.1, hih.2.2.2 hc]

/-- C2 (amended): a handle_sdu call at or above the hard cap delivers nothing,
keeps TX_NEXT, latches hard_stopped and signals on_protocol_failure exactly on
the first such call; from then on no run of SDU submissions, status reports or
timer expiries produces a data PDU or another failure signal.  (data_recovery,
however, still re-delivers cached PDUs — see the counterexample.) -/
theorem hard_stop_behavior :
    (∀ (p : security_primitives) (e : pdcp_entity_tx) (st : pdcp_tx_state)
       (sdu : List Byte),
       e.cfg.max_count.hard ≤ st.tx_next →
       handle_sdu p e st sdu =
         some ({ st with num_sdus := st.num_sdus + 1, max_count_overflow := true },
               if st.max_count_overflow then [] else [event.protocol_failure])) ∧
    (∀ (p : security_primitives) (e : pdcp_entity_tx)
       (st st1 : pdcp_tx_state) (ops : List op) (evs : List event),
       e.cfg.max_count.hard ≤ st.tx_next →
       (∀ o ∈ ops, (∃ b, o = op.sdu b) ∨ (∃ b, o = op.status b) ∨
         ∃ c, o = op.timer_expiry c) →
       run p e st ops = some (st1, evs) →
       evs.filter is_new_pdu = [] ∧ st1.tx_next = st.tx_next ∧
       evs.count event.protocol_failure ≤ 1 ∧
       (st.max_count_overflow = true →
         evs.count event.protocol_failure = 0)) := by
  constructor
  · exact handle_sdu_refuse
  · intro p e st st1 ops evs hh hall h
    obtain ⟨h1, h2, h3, h4⟩ := run_locked p e ops st st1 evs hh hall h
    refine ⟨h1, h2, ?_, h4⟩
    split_ifs at h3 with hov
    · omega
    · exact h3

/-- State of the AM DRB after one accepted SDU with the hard cap at 1. -/
def st_locked_pre : pdcp_tx_state := { st0 with tx_next := 1, discard_timers_map := [(0, [128, 0, 1])], num_sdus := 1, num_pdus := 1 }

/-- The same state after the refused second SDU latched the overflow flag. -/
def st_locked_post : pdcp_tx_state := { st0 with tx_next := 1, discard_timers_map := [(0, [128, 0, 1])], num_sdus := 2, num_pdus := 1, max_count_overflow := true }

/-- The state after lock plus a data_recovery re-delivery. -/
def st_recovered : pdcp_tx_state := { st0 with tx_next := 1, max_count_overflow := true, discard_timers_map := [(0, [128, 0, 1])], num_sdus := 2, num_pdus := 2 }

/-- Witness for C2: the concrete AM DRB with hard cap 1 after one accepted
SDU refuses the second submission with a single protocol-failure signal. -/
theorem hard_stop_behavior_witness :
    ent_am.cfg.max_count.hard ≤ st_locked_pre.tx_next ∧
    handle_sdu prim0 ent_am st_locked_pre [9] =
      some (st_locked_post, [event.protocol_failure]) := by
  refine ⟨by decide, ?_⟩
  have h := hard_stop_behavior.1 prim0 ent_am st_locked_pre [9] (by decide)
  exact h.trans (by decide)

/-- Counterexample to C2 as stated: after the hard stop latches, data_recovery
still hands the cached data PDU for COUNT 0 to lower_dn.on_new_pdu — the
trace below shows a data PDU delivered after protocol_failure. -/
theorem hard_stop_counterexample :
    run prim0 ent_am st0 [op.sdu [1], op.sdu [1], op.recovery] =
      some (st_recovered,
            [event.new_pdu [128, 0, 1] (some 0), event.protocol_failure,
             event.new_pdu [128, 0, 1] (some 0)]) := by
  decide

/-
 * Soft COUNT threshold
-/

/-- Whatever data_recovery returns, it preserves TX_NEXT, both latches and
the map, and it emits only on_new_pdu calls. -/
theorem data_recovery_some_spec (e : pdcp_entity_tx) (st : pdcp_tx_state)
    (r : pdcp_tx_state × List event) (h : data_recovery e st = some r) :
    r.1.tx_next = st.tx_next ∧ r.1.max_count_notified = st.max_count_notified ∧
    r.1.max_count_overflow = st.max_count_overflow ∧
    r.1.discard_timers_map = st.discard_timers_map ∧
    (∀ ev ∈ r.2, ∃ buf c, ev = event.new_pdu buf c) := by
  by_cases hcond : (e.is_drb && decide (e.cfg.rlc_mode = pdcp_rlc_mode.am)) = true
  · have hcond1 := (Bool.and_eq_true _ _).mp hcond
    have hd : e.is_drb = true := hcond1.1
    have ham : e.cfg.rlc_mode = pdcp_rlc_mode.am := of_decide_eq_true hcond1.2
    rw [data_recovery_spec e st hd ham] at h
    simp only [Option.some_inj] at h
    subst h
    refine ⟨rfl, rfl, rfl, rfl, ?_⟩
    intro ev hev
    unfold post_recovery_events at hev
    rcases List.mem_append.mp hev with hm | hm
    · refine ⟨e.compile_status_report, none, ?_⟩
      rcases List.mem_ite_nil_right.mp hm with ⟨_, hm1⟩
      simpa using hm1
    · obtain ⟨kv, _, hkv⟩ := List.mem_map.mp hm
      exact ⟨kv.2, some kv.1, hkv.symm⟩
  · rw [data_recovery_none e st (fun hand => hcond (by simp [hand.1, hand.2]))] at h
    exact absurd h (by simp)

/-- Once the notification latch is set, no run ever signals
on_max_count_reached again. -/
theorem run_notified (p : security_primitives) (e : pdcp_entity_tx) :
    ∀ (ops : List op) (st st1 : pdcp_tx_state) (evs : List event),
      st.max_count_notified = true →
      run p e st ops = some (st1, evs) →
      evs.count event.max_count_reached = 0 ∧
      st1.max_count_notified = true := by
  intro ops
  induction ops with
  | nil =>
    intro st st1 evs hn h
    simp only [run, Option.some_inj] at h
    cases h
    exact ⟨rfl, hn⟩
  | cons o rest ih =>
    intro st st1 evs hn h
    simp only [run] at h
    cases hstep : step p e st o with
    | none =>
      rw [hstep] at h
      exact absurd h (by simp)
    | some r1 =>
      rw [hstep] at h
      dsimp only at h
      cases hrun : run p e r1.1 rest with
      | none =>
        rw [hrun] at h
        exact absurd h (by simp)
      | some r2 =>
        rw [hrun] at h
        simp only [Option.some_inj] at h
        cases h
        have hstep1 : r1.2.count event.max_count_reached = 0 ∧
            r1.1.max_count_notified = true := by
          cases o with
          | sdu b =>
            simp only [step] at hstep
            by_cases hh : e.cfg.max_count.hard ≤ st.tx_next
            · rw [handle_sdu_refuse p e st b hh] at hstep
              simp only [Option.some_inj] at hstep
              subst hstep
              constructor
              · cases hov : st.max_count_overflow <;> simp [hov]
              · exact hn
            · have hlt := Nat.not_le.mp hh
              cases hhdr : write_data_pdu_header e (SN e.cfg.sn_size st.tx_next) with
              | none =>
                rw [handle_sdu_fault p e st b hlt hhdr] at hstep
                exact absurd hstep (by simp)
              | some hdr =>
                rw [handle_sdu_accept p e st b hdr hlt hhdr] at hstep
                simp only [Option.some_inj] at hstep
                subst hstep
                constructor
                · unfold post_sdu_events
                  rw [if_neg (by simp [hn])]
                  simp
                · simp [post_sdu_state, hn]
          | status b =>
            simp only [step, Option.some_inj] at hstep
            subst hstep
            obtain ⟨_, hnn, _, hev, _⟩ := handle_status_report_spec st b
            exact ⟨(discard_only_props _ hev).2.2.1, hnn.trans hn⟩
          | send_status =>
            simp only [step, Option.some_inj] at hstep
            subst hstep
            obtain ⟨_, hnn, _, _, hev⟩ := send_status_report_spec e st
            have hev1 : ∀ ev ∈ (send_status_report e st).2,
                ∃ buf c, ev = event.new_pdu buf c := by
              intro ev hm
              obtain ⟨buf, hb⟩ := hev ev hm
              exact ⟨buf, none, hb⟩
            exact ⟨(new_pdu_only_props _ hev1).2, hnn.trans hn⟩
          | recovery =>
            simp only [step] at hstep
            obtain ⟨_, hnn, _, _, hev⟩ := data_recovery_some_spec e st r1 hstep
            exact ⟨(new_pdu_only_props _ hev).2, hnn.trans hn⟩
          | timer_expiry c =>
            simp only [step, Option.some_inj] at hstep
            subst hstep
            obtain ⟨_, hnn, _, hev, _⟩ := discard_callback_spec st c
            exact ⟨(discard_only_props _ hev).2.2.1, hnn.trans hn⟩
        have hih := ih r1.1 r2.1 r2.2 hstep1.2 hrun
        constructor
        · simp [List.count_append, hstep1.1, hih.1]
        · exact hih.2

/-- C6: the first handle_sdu call in the window notify ≤ TX_NEXT < hard
signals on_max_count_reached exactly once, sets the latch, and still delivers
its data PDU; once the latch is set no operation ever signals again; and
every accepted SDU below the hard cap — including later ones — produces
exactly one downward PDU. -/
theorem soft_threshold_once :
    (∀ (p : security_primitives) (e : pdcp_entity_tx)
       (st st1 : pdcp_tx_state) (sdu : List Byte) (evs : List event),
       e.cfg.max_count.notify ≤ st.tx_next →
       st.tx_next < e.cfg.max_count.hard →
       st.max_count_notified = false →
       handle_sdu p e st sdu = some (st1, evs) →
       st1.max_count_notified = true ∧
       evs.count event.max_count_reached = 1 ∧
       (evs.filter is_new_pdu).length = 1) ∧
    (∀ (p : security_primitives) (e : pdcp_entity_tx)
       (st st1 : pdcp_tx_state) (ops : List op) (evs : List event),
       st.max_count_notified = true →
       run p e st ops = some (st1, evs) →
       evs.count event.max_count_reached = 0) ∧
    (∀ (p : security_primitives) (e : pdcp_entity_tx)
       (st st1 : pdcp_tx_state) (sdu : List Byte) (evs : List event),
       st.tx_next < e.cfg.max_count.hard →
       handle_sdu p e st sdu = some (st1, evs) →
       (evs.filter is_new_pdu).length = 1) := by
  refine ⟨?_, ?_, ?_⟩
  · intro p e st st1 sdu evs hsoft hlt hn h
    cases hhdr : write_data_pdu_header e (SN e.cfg.sn_size st.tx_next) with
    | none =>
      rw [handle_sdu_fault p e st sdu hlt hhdr] at h
      exact absurd h (by simp)
    | some hdr =>
      rw [handle_sdu_accept p e st sdu hdr hlt hhdr] at h
      simp only [Option.some_inj] at h
      cases h
      refine ⟨by simp [post_sdu_state, hsoft], ?_,
        post_sdu_events_new_pdu_len p e st sdu hdr⟩
      unfold post_sdu_events
      rw [if_pos ⟨hsoft, hn⟩]
      simp
  · intro p e st st1 ops evs hn h
    exact (run_notified p e ops st st1 evs hn h).1
  · intro p e st st1 sdu evs hlt h
    cases hhdr : write_data_pdu_header e (SN e.cfg.sn_size st.tx_next) with
    | none =>
      rw [handle_sdu_fault p e st sdu hlt hhdr] at h
      exact absurd h (by simp)
    | some hdr =>
      rw [handle_sdu_accept p e st sdu hdr hlt hhdr] at h
      simp only [Option.some_inj] at h
      cases h
      exact post_sdu_events_new_pdu_len p e st sdu hdr

/-- A DRB whose soft threshold is already crossed at COUNT 0. -/
def ent_n : pdcp_entity_tx :=
  { cfg := { sn_size := 12
             rlc_mode := pdcp_rlc_mode.um
             discard_timer := pdcp_discard_timer.not_configured
             max_count := { notify := 0, hard := 100 }
             status_report_required := false }
    sec_cfg := keys0
    rb_type := rb_kind.drb
    lcid := 1
    direction := security_direction.downlink
    integrity_enabled := false
    ciphering_enabled := false
    compile_status_report := [] }

/-- Witness for C6: the first SDU past the soft threshold raises the one-shot
notification and still ships its PDU. -/
theorem soft_threshold_once_witness :
    ent_n.cfg.max_count.notify ≤ st0.tx_next ∧
    st0.tx_next < ent_n.cfg.max_count.hard ∧
    st0.max_count_notified = false ∧
    handle_sdu prim0 ent_n st0 [7] =
      some ({ st0 with tx_next := 1, max_count_notified := true, num_sdus := 1, num_pdus := 1 },
            [event.max_count_reached, event.new_pdu [128, 0, 7] (some 0)]) ∧
    ([event.max_count_reached,
      event.new_pdu [128, 0, 7] (some 0)].filter is_new_pdu).length = 1 := by
  refine ⟨by decide, by decide, by decide, by decide, ?_⟩
  exact (soft_threshold_once.1 prim0 ent_n st0
    { st0 with tx_next := 1, max_count_notified := true, num_sdus := 1, num_pdus := 1 }
    [7] [event.max_count_reached, event.new_pdu [128, 0, 7] (some 0)]
    (by decide) (by decide) (by decide) (by decide)).2.2

/-
 * Discard map ordering and the cached-PDU invariant
-/

/-- The discard map is keyed in strictly ascending COUNT order. -/
def map_sorted (m : List (Nat × List Byte)) : Prop :=
  List.Pairwise (fun a b => a.1 < b.1) m

theorem map_insert_sorted (k : Nat) (v : List Byte) :
    ∀ m : List (Nat × List Byte), map_sorted m → map_sorted (map_insert m k v) := by
  intro m
  induction m with
  | nil =>
    intro _
    simp [map_insert, map_sorted]
  | cons kv rest ih =>
    intro h
    rw [map_sorted, List.pairwise_cons] at h
    obtain ⟨hhead, htail⟩ := h
    unfold map_insert
    by_cases h1 : k < kv.1
    · rw [if_pos h1]
      refine List.Pairwise.cons ?_ (List.Pairwise.cons hhead htail)
      intro x hx
      rcases List.mem_cons.mp hx with rfl | hx1
      · exact h1
      · exact Nat.lt_trans h1 (hhead x hx1)
    · rw [if_neg h1]
      by_cases h2 : k = kv.1
      · rw [if_pos h2]
        exact List.Pairwise.cons hhead htail
      · rw [if_neg h2]
        refine List.Pairwise.cons ?_ (ih htail)
        intro x hx
        rcases mem_map_insert rest k v x hx with hx1 | rfl
        · exact hhead x hx1
        · simp only []
          omega

theorem map_erase_sublist (k : Nat) :
    ∀ m : List (Nat × List Byte), List.Sublist (map_erase m k) m := by
  intro m
  induction m with
  | nil => simp [map_erase]
  | cons kv rest ih =>
    unfold map_erase
    by_cases h : kv.1 = k
    · rw [if_pos h]
      exact (List.Sublist.refl rest).cons kv
    · rw [if_neg h]
      exact ih.cons₂ kv

theorem map_erase_sorted (k : Nat) (m : List (Nat × List Byte))
    (h : map_sorted m) : map_sorted (map_erase m k) :=
  h.sublist (map_erase_sublist k m)

theorem foldl_map_erase_sorted (l : List Nat) :
    ∀ m : List (Nat × List Byte), map_sorted m →
      map_sorted (l.foldl map_erase m) := by
  induction l with
  | nil => intro m h; exact h
  | cons c rest ih =>
    intro m h
    exact ih (map_erase m c) (map_erase_sorted c m h)

set_option maxHeartbeats 1000000 in
theorem handle_status_report_sorted (st : pdcp_tx_state) (b : List Byte)
    (h : map_sorted st.discard_timers_map) :
    map_sorted (handle_status_report st b).1.discard_timers_map := by
  unfold handle_status_report
  dsimp only
  split_ifs
  · exact h
  · exact h
  · exact h
  · rw [bitmap_loop_eq]
    exact foldl_map_erase_sorted _ _ (h.filter _)

/-- Every entity step keeps the discard map in ascending COUNT order. -/
theorem step_sorted (p : security_primitives) (e : pdcp_entity_tx) (o : op)
    (st : pdcp_tx_state) (r : pdcp_tx_state × List event)
    (h : step p e st o = some r) (hs : map_sorted st.discard_timers_map) :
    map_sorted r.1.discard_timers_map := by
  cases o with
  | sdu b =>
    simp only [step] at h
    by_cases hh : e.cfg.max_count.hard ≤ st.tx_next
    · rw [handle_sdu_refuse p e st b hh] at h
      cases h
      exact hs
    · have hlt := Nat.not_le.mp hh
      cases hhdr : write_data_pdu_header e (SN e.cfg.sn_size st.tx_next) with
      | none =>
        rw [handle_sdu_fault p e st b hlt hhdr] at h
        exact absurd h (by simp)
      | some hdr =>
        rw [handle_sdu_accept p e st b hdr hlt hhdr] at h
        cases h
        unfold post_sdu_state
        dsimp only
        by_cases harm : e.cfg.discard_timer ≠ pdcp_discard_timer.infinity ∧
            e.cfg.discard_timer ≠ pdcp_discard_timer.not_configured
        · rw [if_pos harm]
          exact map_insert_sorted _ _ _ hs
        · rw [if_neg harm]
          exact hs
  | status b =>
    simp only [step, Option.some_inj] at h
    subst h
    exact handle_status_report_sorted st b hs
  | send_status =>
    simp only [step, Option.some_inj] at h
    subst h
    rw [map_sorted, (send_status_report_spec e st).2.2.2.1]
    exact hs
  | recovery =>
    simp only [step] at h
    rw [map_sorted, (data_recovery_some_spec e st r h).2.2.2.1]
    exact hs
  | timer_expiry c =>
    simp only [step, Option.some_inj] at h
    subst h
    exact map_erase_sorted c _ hs

/-- Runs keep the discard map sorted. -/
theorem run_sorted (p : security_primitives) (e : pdcp_entity_tx) :
    ∀ (ops : List op) (st : pdcp_tx_state) (r : pdcp_tx_state × List event),
      run p e st ops = some r → map_sorted st.discard_timers_map →
      map_sorted r.1.discard_timers_map := by
  intro ops
  induction ops with
  | nil =>
    intro st r h hs
    simp only [run, Option.some_inj] at h
    cases h
    exact hs
  | cons o rest ih =>
    intro st r h hs
    simp only [run] at h
    cases hstep : step p e st o with
    | none =>
      rw [hstep] at h
      exact absurd h (by simp)
    | some r1 =>
      rw [hstep] at h
      dsimp only at h
      cases hrun : run p e r1.1 rest with
      | none =>
        rw [hrun] at h
        exact absurd h (by simp)
      | some r2 =>
        rw [hrun] at h
        simp only [Option.some_inj] at h
        cases h
        exact ih r1.1 r2 hrun (step_sorted p e o st r1 hstep hs)

/-- One step of an AM DRB keeps every cached map entry byte-for-byte equal to
a PDU already delivered downward (in the trace so far). -/
theorem step_cached (p : security_primitives) (e : pdcp_entity_tx)
    (hd : e.is_drb = true) (ham : e.cfg.rlc_mode = pdcp_rlc_mode.am) (o : op)
    (st : pdcp_tx_state) (r : pdcp_tx_state × List event)
    (h : step p e st o = some r) (tr : List event)
    (hinv : ∀ kv ∈ st.discard_timers_map,
      event.new_pdu kv.2 (some kv.1) ∈ tr) :
    ∀ kv ∈ r.1.discard_timers_map,
      event.new_pdu kv.2 (some kv.1) ∈ tr ++ r.2 := by
  cases o with
  | sdu b =>
    simp only [step] at h
    by_cases hh : e.cfg.max_count.hard ≤ st.tx_next
    · rw [handle_sdu_refuse p e st b hh] at h
      cases h
      intro kv hkv
      exact List.mem_append_left _ (hinv kv hkv)
    · have hlt := Nat.not_le.mp hh
      cases hhdr : write_data_pdu_header e (SN e.cfg.sn_size st.tx_next) with
      | none =>
        rw [handle_sdu_fault p e st b hlt hhdr] at h
        exact absurd h (by simp)
      | some hdr =>
        rw [handle_sdu_accept p e st b hdr hlt hhdr] at h
        cases h
        intro kv hkv
        simp only [post_sdu_state] at hkv
        have hnotum : ¬ e.cfg.rlc_mode = pdcp_rlc_mode.um := by
          rw [ham]
          intro hx
          exact absurd hx (by simp)
        by_cases harm : e.cfg.discard_timer ≠ pdcp_discard_timer.infinity ∧
            e.cfg.discard_timer ≠ pdcp_discard_timer.not_configured
        · rw [if_pos harm] at hkv
          rw [if_neg hnotum] at hkv
          rcases mem_map_insert _ _ _ kv hkv with hold | rfl
          · exact List.mem_append_left _ (hinv kv hold)
          · refine List.mem_append_right _ ?_
            unfold post_sdu_events
            refine List.mem_append_right _ ?_
            simp [hd]
        · rw [if_neg harm] at hkv
          exact List.mem_append_left _ (hinv kv hkv)
  | status b =>
    simp only [step, Option.some_inj] at h
    subst h
    intro kv hkv
    exact List.mem_append_left _
      (hinv kv ((handle_status_report_spec st b).2.2.2.2 kv hkv))
  | send_status =>
    simp only [step, Option.some_inj] at h
    subst h
    intro kv hkv
    rw [(send_status_report_spec e st).2.2.2.1] at hkv
    exact List.mem_append_left _ (hinv kv hkv)
  | recovery =>
    simp only [step] at h
    intro kv hkv
    rw [(data_recovery_some_spec e st r h).2.2.2.1] at hkv
    exact List.mem_append_left _ (hinv kv hkv)
  | timer_expiry c =>
    simp only [step, Option.some_inj] at h
    subst h
    intro kv hkv
    exact List.mem_append_left _ (hinv kv (mem_map_erase c kv _ hkv))

/-- Over a run of an AM DRB, every cached map entry was delivered downward
byte-for-byte with its COUNT attached. -/
theorem run_cached (p : security_primitives) (e : pdcp_entity_tx)
    (hd : e.is_drb = true) (ham : e.cfg.rlc_mode = pdcp_rlc_mode.am) :
    ∀ (ops : List op) (st : pdcp_tx_state) (r : pdcp_tx_state × List event)
      (tr : List event),
      (∀ kv ∈ st.discard_timers_map, event.new_pdu kv.2 (some kv.1) ∈ tr) →
      run p e st ops = some r →
      ∀ kv ∈ r.1.discard_timers_map,
        event.new_pdu kv.2 (some kv.1) ∈ tr ++ r.2 := by
  intro ops
  induction ops with
  | nil =>
    intro st r tr hinv h
    simp only [run, Option.some_inj] at h
    cases h
    intro kv hkv
    exact List.mem_append_left _ (hinv kv hkv)
  | cons o rest ih =>
    intro st r tr hinv h
    simp only [run] at h
    cases hstep : step p e st o with
    | none =>
      rw [hstep] at h
      exact absurd h (by simp)
    | some r1 =>
      rw [hstep] at h
      dsimp only at h
      cases hrun : run p e r1.1 rest with
      | none =>
        rw [hrun] at h
        exact absurd h (by simp)
      | some r2 =>
        rw [hrun] at h
        simp only [Option.some_inj] at h
        cases h
        have h1 := step_cached p e hd ham o st r1 hstep tr hinv
        have h2 := ih r1.1 r2 (tr ++ r1.2) h1 hrun
        intro kv hkv
        have := h2 kv hkv
        rwa [List.append_assoc] at this

/-- C7: data_recovery faults fast unless the entity is an AM DRB; on an AM
DRB it first emits a status report exactly when status_report_required is
configured, then re-delivers the cached PDU of every discard-map entry in
ascending COUNT order, each byte-for-byte the PDU originally delivered
downward for that COUNT; TX_NEXT, the map and its timers are untouched and no
discard timer is re-armed. -/
theorem data_recovery_replays :
    (∀ (e : pdcp_entity_tx) (st : pdcp_tx_state),
       ¬(e.is_drb = true ∧ e.cfg.rlc_mode = pdcp_rlc_mode.am) →
       data_recovery e st = none) ∧
    (∀ (e : pdcp_entity_tx) (st : pdcp_tx_state),
       e.is_drb = true → e.cfg.rlc_mode = pdcp_rlc_mode.am →
       data_recovery e st =
         some (post_recovery_state e st, post_recovery_events e st)) ∧
    (∀ (e : pdcp_entity_tx) (st : pdcp_tx_state),
       (post_recovery_state e st).tx_next = st.tx_next ∧
       (post_recovery_state e st).discard_timers_map = st.discard_timers_map) ∧
    (∀ (e : pdcp_entity_tx) (st : pdcp_tx_state),
       map_sorted st.discard_timers_map →
       List.Pairwise (· < ·) ((post_recovery_events e st).filterMap data_count)) ∧
    (∀ (p : security_primitives) (e : pdcp_entity_tx) (ops : List op)
       (st : pdcp_tx_state) (r : pdcp_tx_state × List event),
       e.is_drb = true → e.cfg.rlc_mode = pdcp_rlc_mode.am →
       st.discard_timers_map = [] →
       run p e st ops = some r →
       ∀ kv ∈ r.1.discard_timers_map,
         event.new_pdu kv.2 (some kv.1) ∈ r.2) := by
  refine ⟨data_recovery_none, data_recovery_spec, ?_, ?_, ?_⟩
  · intro e st
    exact ⟨rfl, rfl⟩
  · intro e st hs
    have hfm : (post_recovery_events e st).filterMap data_count =
        st.discard_timers_map.map Prod.fst := by
      unfold post_recovery_events
      rw [List.filterMap_append]
      have h1 : ((if e.cfg.status_report_required then
          [event.new_pdu e.compile_status_report none]
          else []) : List event).filterMap data_count = [] := by
        split_ifs <;> simp [data_count]
      rw [h1, List.nil_append, List.filterMap_map]
      have h2 : (data_count ∘ fun kv : Nat × List Byte =>
          event.new_pdu kv.2 (some kv.1)) = fun kv => some kv.1 := by
        funext kv
        rfl
      rw [h2]
      exact List.filterMap_eq_map Prod.fst ▸ rfl
    rw [hfm, List.pairwise_map]
    exact hs
  · intro p e ops st r hd ham hmap h
    have h1 := run_cached p e hd ham ops st r []
      (by rw [hmap]; intro kv hkv; exact absurd hkv (by simp)) h
    intro kv hkv
    have := h1 kv hkv
    rwa [List.nil_append] at this

/-- The discard map 2 ↦ [200], 3 ↦ [201] on a fresh entity. -/
def stC7 : pdcp_tx_state :=
  { st0 with discard_timers_map := [(2, [200]), (3, [201])] }

/-- The state after data_recovery re-delivered both entries plus a report. -/
def stC7post : pdcp_tx_state :=
  { st0 with discard_timers_map := [(2, [200]), (3, [201])], num_pdus := 3 }

/-- Witness for C7: the status-reporting AM DRB re-delivers P2 then P3 after
its status report, leaving state untouched apart from the PDU metric. -/
theorem data_recovery_replays_witness :
    ent_sr.is_drb = true ∧ ent_sr.cfg.rlc_mode = pdcp_rlc_mode.am ∧
    data_recovery ent_sr stC7 =
      some (stC7post,
            [event.new_pdu [0, 0, 0, 0, 1] none,
             event.new_pdu [200] (some 2), event.new_pdu [201] (some 3)]) := by
  refine ⟨rfl, rfl, ?_⟩
  exact (data_recovery_replays.2.1 ent_sr stC7 rfl rfl).trans (by decide)

/-
 * Configuration errors
-/

/-- C9 (amended): below the hard cap an SRB paired with an 18-bit SN faults
fast in the header assertion — nothing is delivered and TX_NEXT does not
advance; an sn_size other than 12 or 18, however, only logs the error: the
SDU is still protected behind a one-byte header, still delivered downward
(with a discard entry armed when configured), and TX_NEXT still advances. -/
theorem config_error_behavior :
    (∀ (p : security_primitives) (e : pdcp_entity_tx) (st : pdcp_tx_state)
       (sdu : List Byte),
       st.tx_next < e.cfg.max_count.hard → e.is_srb = true →
       e.cfg.sn_size = 18 → handle_sdu p e st sdu = none) ∧
    (∀ (p : security_primitives) (e : pdcp_entity_tx) (st : pdcp_tx_state)
       (sdu : List Byte),
       st.tx_next < e.cfg.max_count.hard →
       e.cfg.sn_size ≠ 12 → e.cfg.sn_size ≠ 18 →
       handle_sdu p e st sdu =
         some (post_sdu_state p e st sdu [if e.is_drb then 128 else 0],
               post_sdu_events p e st sdu [if e.is_drb then 128 else 0])) := by
  constructor
  · intro p e st sdu hlt hsrb h18
    have hnone : write_data_pdu_header e (SN e.cfg.sn_size st.tx_next) = none := by
      unfold write_data_pdu_header
      rw [if_pos (by simp [hsrb, h18])]
    exact handle_sdu_fault p e st sdu hlt hnone
  · intro p e st sdu hlt h12 h18
    exact handle_sdu_accept p e st sdu _ hlt (write_header_default e _ h12 h18)

/-- A DRB misconfigured with a 13-bit SN length. -/
def ent_bad : pdcp_entity_tx :=
  { cfg := { sn_size := 13
             rlc_mode := pdcp_rlc_mode.um
             discard_timer := pdcp_discard_timer.not_configured
             max_count := { notify := 1000, hard := 4000 }
             status_report_required := false }
    sec_cfg := keys0
    rb_type := rb_kind.drb
    lcid := 1
    direction := security_direction.downlink
    integrity_enabled := false
    ciphering_enabled := false
    compile_status_report := [] }

/-- An SRB misconfigured with an 18-bit SN length. -/
def ent_srb18 : pdcp_entity_tx :=
  { cfg := { sn_size := 18
             rlc_mode := pdcp_rlc_mode.am
             discard_timer := pdcp_discard_timer.not_configured
             max_count := { notify := 1000, hard := 4000 }
             status_report_required := false }
    sec_cfg := keys0
    rb_type := rb_kind.srb
    lcid := 1
    direction := security_direction.downlink
    integrity_enabled := false
    ciphering_enabled := false
    compile_status_report := [] }

/-- Counterexample to C9 as stated: with the invalid sn_size 13 the SDU is
NOT dropped — a PDU with the one-byte header [0x80] is delivered downward and
TX_NEXT advances from 0 to 1. -/
theorem invalid_sn_size_counterexample :
    ent_bad.cfg.sn_size = 13 ∧
    handle_sdu prim0 ent_bad st0 [170] =
      some ({ st0 with tx_next := 1, num_sdus := 1, num_pdus := 1 },
            [event.new_pdu [128, 170] (some 0)]) := by
  exact ⟨rfl, by decide⟩

/-- Witness for C9: the 18-bit SRB faults fast on its first SDU. -/
theorem config_error_behavior_witness :
    st0.tx_next < ent_srb18.cfg.max_count.hard ∧ ent_srb18.is_srb = true ∧
    ent_srb18.cfg.sn_size = 18 ∧ handle_sdu prim0 ent_srb18 st0 [1] = none :=
  ⟨by decide, rfl, rfl,
   config_error_behavior.1 prim0 ent_srb18 st0 [1] (by decide) rfl rfl⟩

end PdcpTx
